import Mathlib

/-!
Shallow embedding of the diagnostics-and-repair pipeline implemented by the
class `TracebackSystem` in `src/backend/traceback.js`.

Modelling conventions:
* File contents and model outputs are Lean `String`s; most scanning is done
  over `List Char` (`String.data`), because the JavaScript code works on
  UTF-16 strings character by character and all relevant characters are ASCII.
* The file system visible to the pipeline is a snapshot: an association list
  `List (String × String)` from (base)name to content for the diagnostic
  passes, and a function `String → Option String` for the patch applier
  (`fs.existsSync` = membership / `isSome`, `fs.readFileSync` = lookup,
  `fs.writeFileSync` = functional update).
* External tools (compiler, cppcheck, clang-tidy, the inference HTTP
  endpoint) are oracles supplied as arguments: their observable behaviour
  (exit status, captured stdout/stderr text, HTTP outcome) is an input, and
  the embedding reproduces exactly what the JavaScript does with it.
* JavaScript regular expressions used by the source are hand-compiled to
  character-list scanners; each scanner is documented with the regex it
  implements and follows the backtracking-free shape the concrete pattern
  has (all the source's patterns have disjoint character classes at the
  points where greediness could matter).
-/

namespace Traceback

/-- JS `\s` (whitespace class) restricted to ASCII, which is the only
whitespace the pipeline ever meets: space, tab, newline, carriage return,
vertical tab, form feed. -/
def isWS (c : Char) : Bool :=
  c = ' ' || c = '\t' || c = '\n' || c = '\r' || c = '\x0b' || c = '\x0c'

/-- `startsW pat cs` : does `cs` start with `pat`? (JS `String.startsWith`). -/
def startsW : List Char → List Char → Bool
  | [], _ => true
  | _ :: _, [] => false
  | p :: ps, c :: cs => if p = c then startsW ps cs else false

/-- `containsSub hay needle` : JS `String.includes`. -/
def containsSub : List Char → List Char → Bool
  | [], needle => needle.isEmpty
  | hay@(_ :: t), needle => startsW needle hay || containsSub t needle

/-- `endsW suf cs` : JS `String.endsWith`. -/
def endsW (suf cs : List Char) : Bool :=
  startsW suf.reverse cs.reverse

/-- JS `String.trim` (drop leading and trailing whitespace). -/
def trimCL (cs : List Char) : List Char :=
  ((cs.dropWhile isWS).reverse.dropWhile isWS).reverse

/-- JS `content.split('\n')` on character lists.  Always returns at least one
(possibly empty) line. -/
def splitCL : List Char → List (List Char)
  | [] => [[]]
  | c :: cs =>
    if c = '\n' then [] :: splitCL cs
    else
      match splitCL cs with
      | [] => [[c]]
      | l :: ls => (c :: l) :: ls

/-- JS `lines.join('\n')` on character lists. -/
def joinCL : List (List Char) → List Char
  | [] => []
  | [l] => l
  | l :: ls => l ++ '\n' :: joinCL ls

/-- `joinWith sep pieces` : JS `pieces.join(sep)`. -/
def joinWith (sep : List Char) : List (List Char) → List Char
  | [] => []
  | [l] => l
  | l :: ls => l ++ sep ++ joinWith sep ls

/-- JS `path.basename` (the part after the last `/`). -/
def basenameCL (cs : List Char) : List Char :=
  ((cs.reverse.takeWhile (fun c => c ≠ '/')) : List Char).reverse

/-- Association-list lookup keyed by `String` (used for the directory
snapshot and for the patch applier's per-run `fileMap`). -/
def lookupA {α : Type} : List (String × α) → String → Option α
  | [], _ => none
  | (k, v) :: rest, n => if k = n then some v else lookupA rest n

/-- Replace the value stored under an existing key (JS `Map.set` on a key
that is already present; keys are inserted at most once by the callers). -/
def setA {α : Type} : List (String × α) → String → α → List (String × α)
  | [], _, _ => []
  | (k, v) :: rest, n, w => if k = n then (k, w) :: rest else (k, v) :: setA rest n w

/-! ## Data model (`Issue`, `Fix`, `AppliedFix`, summary, result) -/

/-- One detected problem, the record shape pushed by every diagnostic pass.
`line`/`column` are modelled as `Int` (JS numbers). -/
structure Issue where
  file : String
  line : Int
  column : Int
  message : String
  type : String
  code : String := ""
  severity : String
deriving DecidableEq

/-- A proposed remedy produced by `getAIFixes`. -/
structure Fix where
  error : Issue
  suggestion : String
  confidence : Rat
deriving DecidableEq

/-- Audit record produced by `applyFixes` for each write that happened. -/
structure AppliedFix where
  file : String
  line : Int
  old : String
  new : String
deriving DecidableEq

/-! ## `sanitizeFixSuggestion` -/

/-- Character class `[a-zA-Z0-9_]` used by the fence language-tag pattern. -/
def isTagChar (c : Char) : Bool :=
  c.isAlpha || c.isDigit || c = '_'

/-- Helper for the lazy fence body `[\s\S]*?` : split `cs` at the first
occurrence of a closing ```` ``` ````, returning the body before it and the
characters after it; `none` when no closing fence exists. -/
def findClose : List Char → Option (List Char × List Char)
  | [] => none
  | c :: t =>
    if startsW ['`', '`', '`'] (c :: t) then some ([], t.drop 2)
    else
      match findClose t with
      | some (body, rest) => some (c :: body, rest)
      | none => none

/-- All non-overlapping matches of ``/```[\s\S]*?```/g`` (each returned block
includes its opening and closing fence markers), scanning left to right the
way `String.match` with a global regex does.  Fueled by the input length. -/
def findFences : Nat → List Char → List (List Char)
  | 0, _ => []
  | _, [] => []
  | fuel + 1, cs@(_ :: t) =>
    if startsW ['`', '`', '`'] cs then
      match findClose (cs.drop 3) with
      | some (body, rest) => (['`', '`', '`'] ++ body ++ ['`', '`', '`']) :: findFences fuel rest
      | none => findFences fuel t
    else findFences fuel t

/-- ``block.replace(/```[a-zA-Z0-9_]*/g, '')`` : delete every fence marker
together with the language tag glued to it.  (The source's second
`replace(/```/g,'')` is a no-op after this one, since the tag is optional.) -/
def removeTicks : Nat → List Char → List Char
  | 0, _ => []
  | _, [] => []
  | fuel + 1, cs@(c :: t) =>
    if startsW ['`', '`', '`'] cs then removeTicks fuel ((cs.drop 3).dropWhile isTagChar)
    else c :: removeTicks fuel t

/-- The per-fenced-block cleanup in `sanitizeFixSuggestion` step 1. -/
def cleanBlock (block : List Char) : List Char :=
  trimCL (removeTicks block.length block)

/-- `/^Note[: ]/i` tested against an (already trimmed) line. -/
def noteTest : List Char → Bool
  | c1 :: c2 :: c3 :: c4 :: c5 :: _ =>
    (c1 = 'N' || c1 = 'n') && (c2 = 'O' || c2 = 'o') && (c3 = 'T' || c3 = 't') &&
      (c4 = 'E' || c4 = 'e') && (c5 = ':' || c5 = ' ')
  | _ => false

/-- `/^\/\/\s*Note[: ]/i` tested against an (already trimmed) line. -/
def slashNoteTest : List Char → Bool
  | c1 :: c2 :: rest => c1 = '/' && c2 = '/' && noteTest (rest.dropWhile isWS)
  | _ => false

/-- `trimmed.replace(/^\d+\s*:?/, '')` : drop the leading digit run, then
any whitespace, then at most one colon. -/
def dropNumPref (cs : List Char) : List Char :=
  match (cs.dropWhile Char.isDigit).dropWhile isWS with
  | ':' :: rest => rest
  | other => other

/-- One iteration of the line loop in `sanitizeFixSuggestion` step 2:
`none` means the line is skipped, `some l` means `l` is pushed to
`outLines`. -/
def sanitizeLine (line : List Char) : Option (List Char) :=
  let trimmed := trimCL line
  if trimmed.isEmpty then none
  else if startsW ['>', '>', '>'] trimmed then none
  else if startsW ['`', '`', '`'] trimmed then none
  else if noteTest trimmed then none
  else if slashNoteTest trimmed then none
  else if (match trimmed with | c :: _ => c.isDigit | [] => false) &&
          !startsW ['#'] trimmed then
    let after := trimCL (dropNumPref trimmed)
    if after.isEmpty then none else some after
  else some line

/-- Step 2 of `sanitizeFixSuggestion` (split into lines, filter/rewrite each
line, join, trim). -/
def sanitizeLines (text : List Char) : List Char :=
  trimCL (joinCL ((splitCL text).filterMap sanitizeLine))

/-- `TracebackSystem.sanitizeFixSuggestion`: reduce free-form model output to
plain code.  Fenced blocks, when present, replace the whole text; then the
line-level cleanup runs. -/
def sanitizeFixSuggestion (raw : String) : String :=
  let t0 := trimCL raw.data
  let fences := findFences t0.length t0
  let text :=
    if fences.isEmpty then t0
    else trimCL (joinCL (fences.map cleanBlock))
  String.mk (sanitizeLines text)

/-! ## `applyFixes` (Patch Applier)

The on-disk state under the target directory is a function
`Disk : String → Option String` from file name (relative to `codeDir`,
which the JS joins on and we keep implicit) to content. -/

/-- File-system state visible to the patch applier. -/
def Disk : Type := String → Option String

/-- The per-`Fix` loop of `applyFixes`, threading the lazily-populated
`fileMap` (file name ↦ current line array) and collecting the audit records
in push order.  The disk is only read here; writes happen afterwards. -/
def applyLoop (disk : Disk) :
    List Fix → List (String × List (List Char)) →
    List (String × List (List Char)) × List AppliedFix
  | [], fm => (fm, [])
  | fix :: rest, fm =>
    match disk fix.error.file with
    | none => applyLoop disk rest fm
    | some content =>
      let fm1 :=
        match lookupA fm fix.error.file with
        | some _ => fm
        | none => fm ++ [(fix.error.file, splitCL content.data)]
      let lines := (lookupA fm1 fix.error.file).getD []
      let lineIdx : Int := fix.error.line - 1
      if 0 ≤ lineIdx ∧ lineIdx < (lines.length : Int) then
        let oldLine := lines.getD lineIdx.toNat []
        let newLine := trimCL fix.suggestion.data
        let fm2 := setA fm1 fix.error.file (lines.set lineIdx.toNat newLine)
        let res := applyLoop disk rest fm2
        (res.1,
          { file := fix.error.file, line := fix.error.line,
            old := String.mk oldLine, new := String.mk newLine } :: res.2)
      else
        applyLoop disk rest fm1

/-- `TracebackSystem.applyFixes`: run the fix loop, then write every touched
file back exactly once (`lines.join('\n')`).  Returns the new disk state and
the `AppliedFix[]` audit list. -/
def applyFixes (disk : Disk) (fixes : List Fix) : Disk × List AppliedFix :=
  let res := applyLoop disk fixes []
  (fun n =>
      match lookupA res.1 n with
      | some ls => some (String.mk (joinCL ls))
      | none => disk n,
    res.2)

/-! ## `getAIFixes` (Repair Suggestion Engine)

Each HTTP POST to the generation endpoint is modelled by an oracle
`AIOracle : Nat → String → AIOutcome` giving, for (error position, model
name), the observable outcome of that call.  `success body` carries the
string the JS extracts from the response (`response.data.response`, or the
`code`/`fix`/`text` field, or the stringified object — all of which end up
as one string fed to `sanitizeFixSuggestion`).  The three failure
constructors are the classes the JS distinguishes by message/code
inspection:
* `oomFailure` — the response error message contains
  `'requires more system memory'` (and, as for every axios HTTP-error
  object, `err.message`/`err.code` carry no timeout marker);
* `timeoutFailure` — `err.code === 'ECONNABORTED'` or the message contains
  `'timeout'`;
* `otherFailure` — anything else. -/

inductive AIOutcome where
  | success (body : String)
  | oomFailure
  | timeoutFailure
  | otherFailure
deriving DecidableEq

/-- Outcome oracle for inference-service calls (error position, model). -/
def AIOracle : Type := Nat → String → AIOutcome

/-- Run configuration held by the orchestrator (`this.options`), restricted
to the fields the modelled operations read.  `fallbackModel = none` models a
JS-falsy `fallbackModel` (`null` or `''`), for which `getAIFixes` computes
`fallbackModel || null = null`. -/
structure Options where
  useCompiler : Bool := true
  useStaticAnalysis : Bool := true
  useAI : Bool := true
  aiModel : String := "qwen2.5:1.5b"
  fallbackModel : Option String := some "qwen2.5:1.5b"
  compiler : String := "gcc"
  verbose : Bool := false
  autoFix : Bool := false
deriving DecidableEq

/-- `modelsToTry` for one error: the primary, plus the fallback when one is
configured and differs from the primary. -/
def modelsToTry (primary : String) (fallback : Option String) : List String :=
  primary :: (match fallback with
    | some f => if f ≠ primary then [f] else []
    | none => [])

/-- Result of the inner `for (const model of modelsToTry)` loop. -/
inductive InnerResult where
  | gotBody (body : String) (model : String)
  | exhausted
  | threw (k : AIOutcome)
deriving DecidableEq

/-- The inner model loop of `getAIFixes`, also returning the list of calls
(error position, model) actually attempted, in order.  Mirrors the JS
`catch (innerErr)` classification:
* out-of-memory and `model !== fallbackModel` → try the next model;
* timeout and `model !== fallbackModel` and `fallbackModel` truthy → try
  the next model;
* otherwise rethrow to the outer handler. -/
def tryModels (oracle : AIOracle) (idx : Nat) (fallback : Option String) :
    List String → InnerResult × List (Nat × String)
  | [] => (.exhausted, [])
  | m :: rest =>
    match oracle idx m with
    | .success body => (.gotBody body m, [(idx, m)])
    | .oomFailure =>
      if (match fallback with | some f => decide (m ≠ f) | none => true) then
        let res := tryModels oracle idx fallback rest
        (res.1, (idx, m) :: res.2)
      else (.threw .oomFailure, [(idx, m)])
    | .timeoutFailure =>
      if (match fallback with | some f => decide (m ≠ f) | none => false) then
        let res := tryModels oracle idx fallback rest
        (res.1, (idx, m) :: res.2)
      else (.threw .timeoutFailure, [(idx, m)])
    | .otherFailure => (.threw .otherFailure, [(idx, m)])

/-- What one iteration of the outer `for (const error of errors.slice(0,5))`
loop does with an error, after the inner loop and the outer `catch`:
either a Fix is produced, or the error is skipped (empty sanitized output,
inner loop exhausted, or a timeout reaching the outer catch), or the whole
remaining batch is aborted (any non-timeout exception). -/
inductive ErrStep where
  | produced (f : Fix) (calls : List (Nat × String))
  | skipped (calls : List (Nat × String))
  | abortBatch (calls : List (Nat × String))
deriving DecidableEq

/-- The attempted-calls component of an `ErrStep`. -/
def ErrStep.calls : ErrStep → List (Nat × String)
  | .produced _ c => c
  | .skipped c => c
  | .abortBatch c => c

/-- One outer-loop iteration of `getAIFixes` for the error at position
`idx`. -/
def handleError (opts : Options) (oracle : AIOracle) (idx : Nat) (e : Issue) :
    ErrStep :=
  let primary := if opts.aiModel = "" then "qwen2.5:1.5b" else opts.aiModel
  let fallback := opts.fallbackModel
  match tryModels oracle idx fallback (modelsToTry primary fallback) with
  | (.gotBody body m, calls) =>
    let sugg := sanitizeFixSuggestion body
    if sugg ≠ "" then
      .produced
        { error := e, suggestion := sugg,
          confidence := if m = primary then (8 : Rat) / 10 else (7 : Rat) / 10 }
        calls
    else .skipped calls
  | (.exhausted, calls) => .skipped calls
  | (.threw .timeoutFailure, calls) => .skipped calls
  | (.threw _, calls) => .abortBatch calls

/-- The outer loop of `getAIFixes` over the (already capped) error list,
starting at position `idx`; aborting keeps the fixes already produced and
stops performing calls. -/
def processErrors (opts : Options) (oracle : AIOracle) :
    Nat → List Issue → List Fix × List (Nat × String)
  | _, [] => ([], [])
  | idx, e :: rest =>
    match handleError opts oracle idx e with
    | .produced f calls =>
      let res := processErrors opts oracle (idx + 1) rest
      (f :: res.1, calls ++ res.2)
    | .skipped calls =>
      let res := processErrors opts oracle (idx + 1) rest
      (res.1, calls ++ res.2)
    | .abortBatch calls => ([], calls)

/-- `TracebackSystem.getAIFixes`, instrumented with the list of
inference-service calls attempted (each entry one HTTP POST to the
generation endpoint).  `errors.slice(0, 5)` caps the batch. -/
def getAIFixes (opts : Options) (oracle : AIOracle) (errors : List Issue) :
    List Fix × List (Nat × String) :=
  if opts.useAI then processErrors opts oracle 0 (errors.take 5)
  else ([], [])

/-! ## Hand-compiled tool-output scanners

`regex.exec` with the `g` flag finds non-overlapping matches left to right,
resuming after the end of each match and advancing one character on
failure.  `scanMatches` reproduces that drive loop for any single-position
matcher; `removeMatches` is the corresponding `String.replace(pat, '')`. -/

def scanMatches {β : Type} (tryM : List Char → Option (β × List Char)) :
    Nat → List Char → List β
  | 0, _ => []
  | _, [] => []
  | fuel + 1, cs@(_ :: t) =>
    match tryM cs with
    | some (m, rest) => m :: scanMatches tryM fuel rest
    | none => scanMatches tryM fuel t

def removeMatches (tryM : List Char → Option (Unit × List Char)) :
    Nat → List Char → List Char
  | 0, _ => []
  | _, [] => []
  | fuel + 1, cs@(c :: t) =>
    match tryM cs with
    | some (_, rest) => removeMatches tryM fuel rest
    | none => c :: removeMatches tryM fuel t

/-- `parseInt` on a digit run. -/
def digitsToNat (ds : List Char) : Nat :=
  ds.foldl (fun n c => n * 10 + (c.toNat - 48)) 0

/-- The tail `\s*(.+)` shared by the compiler and cppcheck grammars, with
its greedy/backtracking semantics: consume the maximal whitespace run; the
message is the rest of the line if one starts there; when only whitespace
remains in the input, the engine backtracks and the message is the
(non-empty) whitespace segment after the last newline. -/
def wsThenRest (cs : List Char) : Option (List Char × List Char) :=
  match cs.dropWhile isWS with
  | c :: r =>
    let msg := (c :: r).takeWhile (fun x => x != '\n')
    some (msg, (c :: r).drop msg.length)
  | [] =>
    let msg := (cs.reverse.takeWhile (fun x => x != '\n')).reverse
    if msg.isEmpty then none else some (msg, [])

/-- One match of the alternation `(error|warning)`. -/
def sevAlt (cs : List Char) : Option (String × List Char) :=
  if startsW "error".data cs then some ("error", cs.drop 5)
  else if startsW "warning".data cs then some ("warning", cs.drop 7)
  else none

/-- A match of `/([^:]+):(\d+):(\d+):\s*(error|warning):\s*(.+)/`
(GCC/Clang diagnostic grammar in `parseCompilerErrors`). -/
structure CompMatch where
  file : String
  lineNo : Nat
  colNo : Nat
  sev : String
  msg : String
deriving DecidableEq

/-- Attempt the compiler-diagnostic pattern at the start of `cs`.  Because
`[^:]+` and `\d+` stop at characters their classes exclude, the greedy
matching is deterministic at a fixed start position. -/
def tryCompMatch (cs : List Char) : Option (CompMatch × List Char) :=
  let g1 := cs.takeWhile (fun c => c != ':')
  if g1.isEmpty then none else
  match cs.drop g1.length with
  | ':' :: r2 =>
    let d1 := r2.takeWhile Char.isDigit
    if d1.isEmpty then none else
    match r2.drop d1.length with
    | ':' :: r3 =>
      let d2 := r3.takeWhile Char.isDigit
      if d2.isEmpty then none else
      match r3.drop d2.length with
      | ':' :: r4 =>
        match sevAlt (r4.dropWhile isWS) with
        | none => none
        | some (sev, r5) =>
          match r5 with
          | ':' :: r6 =>
            match wsThenRest r6 with
            | none => none
            | some (msg, rest) =>
              some ({ file := String.mk g1, lineNo := digitsToNat d1,
                      colNo := digitsToNat d2, sev := sev,
                      msg := String.mk msg }, rest)
          | _ => none
      | _ => none
    | _ => none
  | _ => none

/-- A match of `/\[([^:]+):(\d+)\]:\s*\((\w+)\)\s*(.+)/`
(cppcheck grammar in `parseCppcheckOutput`). -/
structure CppMatch where
  file : String
  lineNo : Nat
  sev : String
  msg : String
deriving DecidableEq

def tryCppMatch (cs : List Char) : Option (CppMatch × List Char) :=
  match cs with
  | '[' :: r1 =>
    let g1 := r1.takeWhile (fun c => c != ':')
    if g1.isEmpty then none else
    match r1.drop g1.length with
    | ':' :: r2 =>
      let d1 := r2.takeWhile Char.isDigit
      if d1.isEmpty then none else
      match r2.drop d1.length with
      | ']' :: ':' :: r3 =>
        match r3.dropWhile isWS with
        | '(' :: r4 =>
          let w := r4.takeWhile isTagChar
          if w.isEmpty then none else
          match r4.drop w.length with
          | ')' :: r5 =>
            match wsThenRest r5 with
            | none => none
            | some (msg, rest) =>
              some ({ file := String.mk g1, lineNo := digitsToNat d1,
                      sev := String.mk w, msg := String.mk msg }, rest)
          | _ => none
        | _ => none
      | _ => none
    | _ => none
  | _ => none

/-- `(.+?)\]` : the shortest non-empty bracket body followed by `]`, which
must not contain a newline (`.` does not match `\n`). -/
def bracketBody : List Char → Option (List Char × List Char)
  | [] => none
  | a :: rest =>
    if a = '\n' then none
    else
      match bracketBodyTail rest with
      | some (b, r) => some (a :: b, r)
      | none => none
where
  bracketBodyTail : List Char → Option (List Char × List Char)
    | [] => none
    | c :: t =>
      if c = ']' then some ([], t)
      else if c = '\n' then none
      else
        match bracketBodyTail t with
        | some (b, r) => some (c :: b, r)
        | none => none

/-- Helper for `tidyTail`: does a well-formed `\s*\[(.+?)\]` start here? -/
def tidyBracketAt (cs : List Char) : Option (List Char × List Char) :=
  match cs.dropWhile isWS with
  | '[' :: r => bracketBody r
  | _ => none

/-- Worker for the lazy message of the clang-tidy grammar: `accRev` holds
the (reversed, non-empty) message candidate; extend it one non-newline
character at a time until `\s*\[(.+?)\]` matches right after it. -/
def tidyTailGo (accRev : List Char) : List Char → Option (List Char × List Char × List Char)
  | [] => none
  | c :: t =>
    match tidyBracketAt (c :: t) with
    | some (chk, rest) => some (accRev.reverse, chk, rest)
    | none => if c = '\n' then none else tidyTailGo (c :: accRev) t

/-- The lazy tail `(.+?)\s*\[(.+?)\]` of the clang-tidy grammar: grow the
message one (non-newline) character at a time; at each length check whether,
after skipping whitespace, a well-formed `[check]` follows. -/
def tidyTail : List Char → Option (List Char × List Char × List Char)
  | [] => none
  | c :: t => if c = '\n' then none else tidyTailGo [c] t

/-- A match of
`/([^:]+):(\d+):(\d+):\s*(warning|error):\s*(.+?)\s*\[(.+?)\]/`
(clang-tidy grammar in `parseClangTidyOutput`). -/
structure TidyMatch where
  file : String
  lineNo : Nat
  colNo : Nat
  sev : String
  msg : String
  check : String
deriving DecidableEq

/-- One match of the alternation `(warning|error)`. -/
def sevAltWE (cs : List Char) : Option (String × List Char) :=
  if startsW "warning".data cs then some ("warning", cs.drop 7)
  else if startsW "error".data cs then some ("error", cs.drop 5)
  else none

def tryTidyMatch (cs : List Char) : Option (TidyMatch × List Char) :=
  let g1 := cs.takeWhile (fun c => c != ':')
  if g1.isEmpty then none else
  match cs.drop g1.length with
  | ':' :: r2 =>
    let d1 := r2.takeWhile Char.isDigit
    if d1.isEmpty then none else
    match r2.drop d1.length with
    | ':' :: r3 =>
      let d2 := r3.takeWhile Char.isDigit
      if d2.isEmpty then none else
      match r3.drop d2.length with
      | ':' :: r4 =>
        match sevAltWE (r4.dropWhile isWS) with
        | none => none
        | some (sev, r5) =>
          match r5 with
          | ':' :: r6 =>
            match tidyTail (r6.dropWhile isWS) with
            | none => none
            | some (msg, chk, rest) =>
              some ({ file := String.mk g1, lineNo := digitsToNat d1,
                      colNo := digitsToNat d2, sev := sev,
                      msg := String.mk msg, check := String.mk chk }, rest)
          | _ => none
      | _ => none
    | _ => none
  | _ => none

/-- A match of `/#include\s*[<"]([^>"]+)[>"]/` with the captured header
name (used by both `extractIncludes` and `combineCode`). -/
def tryInclMatch (cs : List Char) : Option (List Char × List Char) :=
  if startsW "#include".data cs then
    match (cs.drop 8).dropWhile isWS with
    | d :: r2 =>
      if d = '<' || d = '"' then
        let name := r2.takeWhile (fun c => c != '>' && c != '"')
        if name.isEmpty then none else
        match r2.drop name.length with
        | e :: r3 => if e = '>' || e = '"' then some (name, r3) else none
        | [] => none
      else none
    | [] => none
  else none

/-! ## Diagnostic passes and `analyzeCode`

The directory snapshot is an association list `List (String × String)` from
(base)name to content, standing for `fs.readdirSync`/`fs.existsSync`/
`fs.readFileSync`.  Paths and their basenames coincide in the model because
`analyzeCode` joins `codeDir` onto every name and the passes take the
basename straight back. -/

/-- Mutable accumulators of a `TracebackSystem` instance
(`this.errors` / `this.warnings` / `this.fixes`). -/
structure TState where
  errors : List Issue := []
  warnings : List Issue := []
  fixes : List Fix := []
deriving DecidableEq

def pushErr (st : TState) (i : Issue) : TState :=
  { st with errors := st.errors ++ [i] }

def pushWarn (st : TState) (i : Issue) : TState :=
  { st with warnings := st.warnings ++ [i] }

/-- `path.basename` on strings. -/
def basenameS (s : String) : String :=
  String.mk (basenameCL s.data)

/-- `/[^;{}]\s*$/` tested against a single (newline-free) line: it matches
exactly when the line is non-empty and its last character is none of
`;`, `{`, `}` — whitespace itself lies in `[^;{}]`, so a trailing
whitespace character is its own witness, while a final `;`/`{`/`}` blocks
every candidate (all characters after a witness must be whitespace). -/
def check1 (line : List Char) : Bool :=
  match line.getLast? with
  | none => false
  | some c => !(c == ';') && !(c == '{') && !(c == '}')

/-- `/#include\s*<[^>]+$/` anchored at the start of `cs`. -/
def check2At (cs : List Char) : Bool :=
  if startsW "#include".data cs then
    match (cs.drop 8).dropWhile isWS with
    | '<' :: rest => !rest.isEmpty && rest.all (fun c => c != '>')
    | _ => false
  else false

/-- `/#include\s*<[^>]+$/` tested against a line (scan all starts). -/
def check2 : List Char → Bool
  | [] => false
  | cs@(_ :: t) => check2At cs || check2 t

/-- Scanning from the end of the line: does an `openc` occur with no
`closec` after it?  This decides `/\(​[^)]*$/` and `/\[[^\]]*$/`. -/
def unclosedFrom (openc closec : Char) : List Char → Bool
  | [] => false
  | c :: t =>
    if c = openc then true
    else if c = closec then false
    else unclosedFrom openc closec t

/-- `/\([^)]*$/` : the last `(` of the line has no `)` after it. -/
def check3 (line : List Char) : Bool :=
  unclosedFrom '(' ')' line.reverse

/-- `/\[[^\]]*$/` : the last `[` of the line has no `]` after it. -/
def check4 (line : List Char) : Bool :=
  unclosedFrom '[' ']' line.reverse

/-- `/"[^"]*$/` : matches exactly when the line contains a `"` at all (the
last quote is always a witness, since everything after it is quote-free). -/
def check5 (line : List Char) : Bool :=
  line.contains '"'

/-- The `syntaxChecks` table of `checkSyntax`, in source order. -/
def syntaxChecks : List ((List Char → Bool) × String) :=
  [(check1, "Missing semicolon or closing brace"),
   (check2, "Incomplete #include directive"),
   (check3, "Unclosed parenthesis"),
   (check4, "Unclosed bracket"),
   (check5, "Unclosed string literal")]

/-- Issues pushed by `checkSyntax` for one line: each matching check fires
unless the trimmed line ends in the line-continuation `\`. -/
def syntaxLineIssues (fname : String) (idx : Nat) (line : List Char) : List Issue :=
  (syntaxChecks.filter (fun ch => ch.1 line && !endsW ['\\'] (trimCL line))).map
    (fun ch =>
      { file := fname, line := (idx : Int) + 1, column := (line.length : Int),
        message := ch.2, type := "syntax", code := String.mk (trimCL line),
        severity := "error" })

/-- `TracebackSystem.checkSyntax` over the snapshot (missing files are
skipped). -/
def checkSyntax (snapshot : List (String × String)) (st : TState)
    (files : List String) : TState :=
  files.foldl
    (fun s f =>
      match lookupA snapshot f with
      | none => s
      | some content =>
        (splitCL content.data).enum.foldl
          (fun s2 il => (syntaxLineIssues (basenameS f) il.1 il.2).foldl pushErr s2) s)
    st

/-- `TracebackSystem.getLineContent` (1-indexed; out-of-range, index 0 and
missing files give `''`). -/
def getLineContent (snapshot : List (String × String)) (p : String) (n : Nat) : String :=
  match lookupA snapshot p with
  | none => ""
  | some c => if n = 0 then "" else String.mk ((splitCL c.data).getD (n - 1) [])

/-- `line.replace(/error:\s*/, '')` (first occurrence only). -/
def removeFirstErrTag : List Char → List Char
  | [] => []
  | c :: t =>
    if startsW "error:".data (c :: t) then ((c :: t).drop 6).dropWhile isWS
    else c :: removeFirstErrTag t

/-- Issue built for one compiler-diagnostic match, including the best-effort
resolution of the reported path back to an input file. -/
def compIssue (snapshot : List (String × String)) (files : List String)
    (m : CompMatch) : Issue :=
  let fname := basenameS m.file
  let fullPath := files.find?
    (fun f => containsSub f.data fname.data || containsSub fname.data (basenameS f).data)
  { file := fname, line := (m.lineNo : Int), column := (m.colNo : Int),
    message := String.mk (trimCL m.msg.data), type := "compilation",
    severity := if m.sev = "error" then "error" else "warning",
    code := getLineContent snapshot (fullPath.getD m.file) m.lineNo }

/-- `TracebackSystem.parseCompilerErrors`: the regex drive loop, then the
generic `error:` fallback, which fires only when the instance has collected
no errors at all so far. -/
def parseCompilerErrors (snapshot : List (String × String)) (files : List String)
    (st : TState) (output : String) : TState :=
  let st1 := (scanMatches tryCompMatch output.data.length output.data).foldl
    (fun s m =>
      if m.sev = "error" then pushErr s (compIssue snapshot files m)
      else pushWarn s (compIssue snapshot files m))
    st
  if st1.errors.isEmpty && containsSub output.data "error:".data then
    ((splitCL output.data).filter (fun l => containsSub l "error:".data)).foldl
      (fun s l => pushErr s
        { file := "unknown", line := 0, column := 0,
          message := String.mk (trimCL (removeFirstErrTag l)),
          type := "compilation", severity := "error" })
      st1
  else st1

/-- Issue built for one cppcheck match. -/
def cppIssue (snapshot : List (String × String)) (files : List String)
    (m : CppMatch) : Issue :=
  let fname := basenameS m.file
  let fullPath := files.find? (fun f => containsSub f.data fname.data)
  { file := fname, line := (m.lineNo : Int), column := 0,
    message := String.mk (trimCL m.msg.data), type := "static_analysis",
    severity := if m.sev = "error" then "error" else "warning",
    code := getLineContent snapshot (fullPath.getD m.file) m.lineNo }

/-- `TracebackSystem.parseCppcheckOutput`. -/
def parseCppcheckOutput (snapshot : List (String × String)) (files : List String)
    (st : TState) (output : String) : TState :=
  (scanMatches tryCppMatch output.data.length output.data).foldl
    (fun s m =>
      if m.sev = "error" then pushErr s (cppIssue snapshot files m)
      else pushWarn s (cppIssue snapshot files m))
    st

/-- Issue built for one clang-tidy match (`message [check]`). -/
def tidyIssue (snapshot : List (String × String)) (files : List String)
    (m : TidyMatch) : Issue :=
  let fname := basenameS m.file
  let fullPath := files.find? (fun f => containsSub f.data fname.data)
  { file := fname, line := (m.lineNo : Int), column := (m.colNo : Int),
    message := String.mk (trimCL m.msg.data) ++ " [" ++ m.check ++ "]",
    type := "static_analysis",
    severity := if m.sev = "error" then "error" else "warning",
    code := getLineContent snapshot (fullPath.getD m.file) m.lineNo }

/-- `TracebackSystem.parseClangTidyOutput`. -/
def parseClangTidyOutput (snapshot : List (String × String)) (files : List String)
    (st : TState) (output : String) : TState :=
  (scanMatches tryTidyMatch output.data.length output.data).foldl
    (fun s m =>
      if m.sev = "error" then pushErr s (tidyIssue snapshot files m)
      else pushWarn s (tidyIssue snapshot files m))
    st

/-- `/\w+\s+\w+;/` anchored at the start of `cs` (the uninitialized-variable
heuristic; `\w`/`\s` are disjoint classes, so greedy matching is
deterministic). -/
def qualAt (cs : List Char) : Bool :=
  let w1 := cs.takeWhile isTagChar
  if w1.isEmpty then false else
  let r1 := cs.drop w1.length
  let ws := r1.takeWhile isWS
  if ws.isEmpty then false else
  let r2 := r1.drop ws.length
  let w2 := r2.takeWhile isTagChar
  if w2.isEmpty then false else
  match r2.drop w2.length with
  | ';' :: _ => true
  | _ => false

/-- `/\w+\s+\w+;/` tested as a substring search. -/
def qualPat : List Char → Bool
  | [] => false
  | cs@(_ :: t) => qualAt cs || qualPat t

/-- Warnings pushed by `checkCodeQuality` for one line, in source order. -/
def qualityLineIssues (fname : String) (idx : Nat) (line : List Char) : List Issue :=
  (if containsSub line "volatile".data && containsSub line ['*'] &&
      !containsSub line ['('] then
    [({ file := fname, line := (idx : Int) + 1, column := 0,
        message := "Potential undefined behavior with volatile pointer",
        type := "quality", severity := "warning",
        code := String.mk (trimCL line) } : Issue)]
  else []) ++
  (if qualPat line && !containsSub line ['='] &&
      !containsSub line "extern".data && !containsSub line "static".data then
    [({ file := fname, line := (idx : Int) + 1, column := 0,
        message := "Potentially uninitialized variable",
        type := "quality", severity := "warning",
        code := String.mk (trimCL line) } : Issue)]
  else [])

/-- `TracebackSystem.checkCodeQuality`. -/
def checkCodeQuality (snapshot : List (String × String)) (st : TState)
    (files : List String) : TState :=
  files.foldl
    (fun s f =>
      match lookupA snapshot f with
      | none => s
      | some content =>
        (splitCL content.data).enum.foldl
          (fun s2 il => (qualityLineIssues (basenameS f) il.1 il.2).foldl pushWarn s2) s)
    st

/-- One `includes.add(...)` step of `extractIncludes`: insert the
canonicalized line `#include <name>` unless already present (JS `Set`
semantics, insertion-ordered). -/
def addInc (acc : List String) (name : List Char) : List String :=
  let inc := "#include <" ++ String.mk name ++ ">"
  if acc.contains inc then acc else acc ++ [inc]

/-- Per-file step of `extractIncludes` (missing files are skipped). -/
def extractFileStep (snapshot : List (String × String)) (acc : List String)
    (f : String) : List String :=
  match lookupA snapshot f with
  | none => acc
  | some content =>
    (scanMatches tryInclMatch content.data.length content.data).foldl addInc acc

/-- `TracebackSystem.extractIncludes`: ordered set of canonicalized
`#include <name>` lines over all (existing) files. -/
def extractIncludes (snapshot : List (String × String)) (files : List String) :
    List String :=
  files.foldl (extractFileStep snapshot) []

/-- All header names captured by the include pattern across the (existing)
files, in scan order. -/
def includedNames (snapshot : List (String × String)) (files : List String) :
    List (List Char) :=
  files.flatMap (fun f =>
    match lookupA snapshot f with
    | none => []
    | some c => scanMatches tryInclMatch c.data.length c.data)

/-- `TracebackSystem.combineCode`: bodies of the existing files with every
`#include` directive deleted, joined by blank lines. -/
def combineCode (snapshot : List (String × String)) (files : List String) :
    List Char :=
  joinWith "\n\n".data
    (files.filterMap (fun f =>
      (lookupA snapshot f).map (fun c =>
        removeMatches (fun cs => (tryInclMatch cs).map (fun r => ((), r.2)))
          c.data.length c.data)))

/-- The synthetic translation unit `checkCompilation` writes to
`__test_compile.c` and hands to the external compiler:
```${allIncludes.join('\n')}\n\n${allCode}``` . -/
def buildTestCode (snapshot : List (String × String)) (files : List String) :
    String :=
  String.mk
    (joinWith ['\n'] ((extractIncludes snapshot files).map String.data) ++
      "\n\n".data ++ combineCode snapshot files)

/-- Modelled from the spec (for comparison with `buildTestCode`): the unit
the spec describes, whose include section is "the union of all unique
`#include` lines **found across the file set**" — the lines exactly as they
occur in the files, not canonicalized. -/
def specTestCode (snapshot : List (String × String)) (files : List String) :
    String :=
  let includeLines :=
    files.foldl
      (fun acc f =>
        match lookupA snapshot f with
        | none => acc
        | some content =>
          (splitCL content.data).foldl
            (fun acc2 l =>
              if (scanMatches tryInclMatch l.length l).isEmpty then acc2
              else
                let ls := String.mk l
                if acc2.contains ls then acc2 else acc2 ++ [ls])
            acc)
      []
  String.mk
    (joinWith ['\n'] (includeLines.map String.data) ++
      "\n\n".data ++ combineCode snapshot files)

/-- `.c` / `.cpp` filter used before the compiler and analyzer passes. -/
def isCFile (f : String) : Bool :=
  endsW ".c".data f.data || endsW ".cpp".data f.data

/-- `.c` / `.h` / `.cpp` discovery filter of `analyzeCode`. -/
def isSourceFile (f : String) : Bool :=
  endsW ".c".data f.data || endsW ".h".data f.data || endsW ".cpp".data f.data

/-- Observable behaviour of the external tools for one run:
`compiler = some (status, out)` is the spawned compiler's exit status and
captured diagnostics (`result.stderr || result.stdout || ''`); `none` means
the spawn itself failed (missing binary — swallowed).  Likewise for the
two analyzers' captured stdout. -/
structure ToolOutputs where
  compiler : Option (Int × String) := none
  cppcheck : Option String := none
  clangTidy : Option String := none

/-- `TracebackSystem.checkCompilation`: skipped without C sources, swallowed
on spawn failure, parsed only on non-zero exit status. -/
def checkCompilation (snapshot : List (String × String)) (tools : ToolOutputs)
    (st : TState) (files : List String) : TState :=
  if (files.filter isCFile).isEmpty then st
  else
    match tools.compiler with
    | none => st
    | some (status, out) =>
      if status ≠ 0 then parseCompilerErrors snapshot files st out else st

/-- `TracebackSystem.runCppcheck` (empty stdout is falsy and skipped). -/
def runCppcheck (snapshot : List (String × String)) (tools : ToolOutputs)
    (st : TState) (files : List String) : TState :=
  if (files.filter isCFile).isEmpty then st
  else
    match tools.cppcheck with
    | none => st
    | some out => if out ≠ "" then parseCppcheckOutput snapshot files st out else st

/-- `TracebackSystem.runClangTidy`. -/
def runClangTidy (snapshot : List (String × String)) (tools : ToolOutputs)
    (st : TState) (files : List String) : TState :=
  if (files.filter isCFile).isEmpty then st
  else
    match tools.clangTidy with
    | none => st
    | some out => if out ≠ "" then parseClangTidyOutput snapshot files st out else st

/-- Per-type histogram (`groupByType`), preserving JS object insertion
order. -/
def bump : List (String × Nat) → String → List (String × Nat)
  | [], t => [(t, 1)]
  | (k, v) :: rest, t =>
    if k = t then (k, v + 1) :: rest else (k, v) :: bump rest t

def groupByType (issues : List Issue) : List (String × Nat) :=
  issues.foldl (fun acc i => bump acc i.type) []

/-- `TracebackSystem.getSummary`. -/
structure Summary where
  totalErrors : Nat
  totalWarnings : Nat
  totalFixes : Nat
  errorTypes : List (String × Nat)
  warningTypes : List (String × Nat)
deriving DecidableEq

def getSummary (st : TState) : Summary :=
  { totalErrors := st.errors.length, totalWarnings := st.warnings.length,
    totalFixes := st.fixes.length, errorTypes := groupByType st.errors,
    warningTypes := groupByType st.warnings }

/-- The aggregate `analyzeCode` returns. -/
structure AnalysisResult where
  errors : List Issue
  warnings : List Issue
  fixes : List Fix
  summary : Summary
deriving DecidableEq

/-- `TracebackSystem.analyzeCode`: reset the instance accumulators, discover
files when none are supplied, run the four passes in order, return the
aggregate.  The incoming `st` is the instance state left over from earlier
calls; the first three assignments of the source overwrite it. -/
def analyzeCode (opts : Options) (st : TState) (snapshot : List (String × String))
    (filesArg : Option (List String)) (tools : ToolOutputs) :
    TState × AnalysisResult :=
  let _ := st
  let st0 : TState := { errors := [], warnings := [], fixes := [] }
  let files :=
    match filesArg with
    | some fs => fs
    | none => (snapshot.map Prod.fst).filter isSourceFile
  let st1 := checkSyntax snapshot st0 files
  let st2 := if opts.useCompiler then checkCompilation snapshot tools st1 files else st1
  let st3 :=
    if opts.useStaticAnalysis then
      runClangTidy snapshot tools (runCppcheck snapshot tools st2 files) files
    else st2
  let st4 := checkCodeQuality snapshot st3 files
  (st4,
    { errors := st4.errors, warnings := st4.warnings, fixes := st4.fixes,
      summary := getSummary st4 })

/-! ## Derived predicates and concrete instances used by the claim theorems -/

/-- The condition under which `applyFixes` actually writes a Fix: the target
file exists and the 0-based line index lies within the file's line count
(the count never changes during a run, because each write replaces exactly
one slot).  `0 ≤ line - 1` is phrased as `1 ≤ line`. -/
def fixApplies (disk : Disk) (f : Fix) : Bool :=
  match disk f.error.file with
  | none => false
  | some content =>
    decide (1 ≤ f.error.line ∧
      f.error.line - 1 < ((splitCL content.data).length : Int))

/-- Invariant of the patch applier's `fileMap`: every loaded line array
belongs to an existing file and keeps that file's original line count. -/
def InvFM (disk : Disk) (fm : List (String × List (List Char))) : Prop :=
  ∀ p ls, lookupA fm p = some ls →
    ∃ c, disk p = some c ∧ ls.length = (splitCL c.data).length

/-- Directory holding one three-line file `a.c`. -/
def diskABC : Disk := fun n => if n = "a.c" then some "a\nb\nc" else none

/-- Directory holding one ten-line file `b.c`. -/
def diskTen : Disk := fun n =>
  if n = "b.c" then some "0\n1\n2\n3\n4\n5\n6\n7\n8\n9" else none

/-- Issue at `a.c:2`. -/
def issueA2 : Issue :=
  { file := "a.c", line := 2, column := 0, message := "m", type := "syntax",
    severity := "error" }

/-- A Fix whose suggestion text spans two lines. -/
def fixMulti : Fix :=
  { error := issueA2, suggestion := "X\nY", confidence := (8 : Rat) / 10 }

/-- A Fix whose trimmed suggestion is a single line. -/
def fixSingle : Fix :=
  { error := issueA2, suggestion := "  X;  ", confidence := (8 : Rat) / 10 }

/-- A Fix aimed at line 1000 of the ten-line file. -/
def fixLine1000 : Fix :=
  { error := { file := "b.c", line := 1000, column := 0, message := "m",
               type := "compilation", severity := "error" },
    suggestion := "X", confidence := (8 : Rat) / 10 }

/-- Issue constructor for the batch claims. -/
def mkIssue (k : Int) : Issue :=
  { file := "a.c", line := k, column := 0, message := "m",
    type := "compilation", severity := "error" }

/-- Eight issues, as supplied to `getFixes` in Scenario D. -/
def issues8 : List Issue := (List.range 8).map (fun k => mkIssue k)

/-- Run configuration with distinct primary (`p`) and fallback (`f`)
models. -/
def optsPF : Options := { aiModel := "p", fallbackModel := some "f" }

/-- Inference oracle: every call times out. -/
def oracleTimeout : AIOracle := fun _ _ => .timeoutFailure

/-- Inference oracle: both models exhaust memory on the first error; the
primary answers valid code for every later error. -/
def oracleOomThenGood : AIOracle := fun i _ =>
  if i = 0 then .oomFailure else .success "int x = 0;"

/-- Inference oracle: the primary model times out, the fallback answers. -/
def oracleFallbackGood : AIOracle := fun _ m =>
  if m = "p" then .timeoutFailure else .success "int y = 1;"

/-- Inference oracle: every call fails with a non-timeout, non-memory
error. -/
def oracleOther : AIOracle := fun _ _ => .otherFailure


/-- The C8 invariant on the instance accumulators: every collected error
has severity `error`, every collected warning severity `warning`, and all
lines are non-negative. -/
def StOk (st : TState) : Prop :=
  (∀ i ∈ st.errors, i.severity = "error" ∧ 0 ≤ i.line) ∧
  (∀ i ∈ st.warnings, i.severity = "warning" ∧ 0 ≤ i.line)


/-- The single Issue the syntax pass emits for the file `a.c` containing
`int x` (used by the C8 witness). -/
def issueIntX : Issue :=
  { file := "a.c", line := 1, column := 5,
    message := "Missing semicolon or closing brace", type := "syntax",
    code := "int x", severity := "error" }


/-! ## Helper lemmas: `split('\n')` / `join('\n')` roundtrips -/

theorem splitCL_ne_nil (cs : List Char) : splitCL cs ≠ [] := by
  induction cs with
  | nil => simp [splitCL]
  | cons c t ih =>
    simp only [splitCL]
    by_cases h : c = '\n'
    · simp [h]
    · simp only [h, if_false]
      cases hs : splitCL t <;> simp

theorem splitCL_cons_exists (t : List Char) : ∃ l0 ls, splitCL t = l0 :: ls := by
  cases hs : splitCL t with
  | nil => exact absurd hs (splitCL_ne_nil t)
  | cons a b => exact ⟨a, b, rfl⟩

theorem joinCL_splitCL (cs : List Char) : joinCL (splitCL cs) = cs := by
  induction cs with
  | nil => rfl
  | cons c t ih =>
    by_cases h : c = '\n'
    · subst h
      simp only [splitCL, if_pos rfl]
      rcases hs : splitCL t with _ | ⟨l, ls⟩
      · exact absurd hs (splitCL_ne_nil t)
      · rw [hs] at ih
        simp [joinCL, ih]
    · simp only [splitCL, h, if_false]
      rcases hs : splitCL t with _ | ⟨l, ls⟩
      · exact absurd hs (splitCL_ne_nil t)
      · rw [hs] at ih
        rcases ls with _ | ⟨l2, ls2⟩
        · simpa [joinCL] using congrArg (c :: ·) ih
        · simp only [joinCL] at ih ⊢
          simp [← ih]

theorem newline_not_mem_splitCL {cs : List Char} {l : List Char}
    (h : l ∈ splitCL cs) : '\n' ∉ l := by
  induction cs generalizing l with
  | nil =>
    simp [splitCL] at h
    simp [h]
  | cons c t ih =>
    obtain ⟨l0, ls, hs⟩ := splitCL_cons_exists t
    by_cases hc : c = '\n'
    · subst hc
      simp only [splitCL, if_pos rfl] at h
      cases h with
      | head => simp
      | tail _ h => exact ih h
    · simp only [splitCL, hc, if_false, hs] at h
      cases h with
      | head =>
        intro hmem
        rcases List.mem_cons.mp hmem with h3 | h3
        · exact hc h3.symm
        · exact ih (hs ▸ List.mem_cons_self l0 ls) h3
      | tail _ h2 => exact ih (hs ▸ List.mem_cons_of_mem l0 h2)

theorem splitCL_no_newline {l : List Char} (h : '\n' ∉ l) : splitCL l = [l] := by
  induction l with
  | nil => rfl
  | cons c t ih =>
    have hc : c ≠ '\n' := fun e => h (e ▸ List.mem_cons_self c t)
    have ht : '\n' ∉ t := fun m => h (List.mem_cons_of_mem c m)
    simp [splitCL, hc, ih ht]

theorem splitCL_append_newline {l r : List Char} (h : '\n' ∉ l) :
    splitCL (l ++ '\n' :: r) = l :: splitCL r := by
  induction l with
  | nil => simp [splitCL]
  | cons c t ih =>
    have hc : c ≠ '\n' := fun e => h (e ▸ List.mem_cons_self c t)
    have ht : '\n' ∉ t := fun m => h (List.mem_cons_of_mem c m)
    simp [splitCL, hc, ih ht]

theorem splitCL_joinCL {L : List (List Char)} (hne : L ≠ [])
    (h : ∀ l ∈ L, '\n' ∉ l) : splitCL (joinCL L) = L := by
  induction L with
  | nil => exact absurd rfl hne
  | cons l L ih =>
    rcases L with _ | ⟨l2, L2⟩
    · simp [joinCL, splitCL_no_newline (h l (List.mem_cons_self _ _))]
    · have he : joinCL (l :: l2 :: L2) = l ++ '\n' :: joinCL (l2 :: L2) := rfl
      rw [he, splitCL_append_newline (h l (List.mem_cons_self _ _))]
      rw [ih (by simp) (fun x hx => h x (List.mem_cons_of_mem _ hx))]

/-! ## Helper lemmas: `applyFixes` on a one-fix list -/

/-- Full characterization of what `applyFixes` leaves on disk for a one-fix
list: nothing when the target file is missing; the file rewritten with the
slot `line - 1` replaced by the trimmed suggestion when the line index is in
range; the file rewritten unchanged (split and rejoined) otherwise.
(`0 ≤ line - 1` is phrased as `1 ≤ line`.) -/
theorem applyFixes_single_eq (disk : Disk) (fix : Fix) :
    (applyFixes disk [fix]).1 = fun n =>
      match disk fix.error.file with
      | none => disk n
      | some content =>
        if fix.error.file = n then
          if 1 ≤ fix.error.line ∧
             fix.error.line - 1 < ((splitCL content.data).length : Int) then
            some (String.mk (joinCL ((splitCL content.data).set
              (fix.error.line.toNat - 1) (trimCL fix.suggestion.data))))
          else some content
        else disk n := by
  funext n
  rcases eq_or_ne fix.error.file n with rfl | hn
  · cases hd : disk fix.error.file with
    | none => simp [applyFixes, applyLoop, hd, lookupA]
    | some content =>
      by_cases hb : 1 ≤ fix.error.line ∧
          fix.error.line - 1 < ((splitCL content.data).length : Int)
      · simp [applyFixes, applyLoop, hd, lookupA, setA, hb, hb.1, hb.2]
      · simp [applyFixes, applyLoop, hd, lookupA, setA, hb, joinCL_splitCL]
  · cases hd : disk fix.error.file with
    | none => simp [applyFixes, applyLoop, hd, lookupA]
    | some content =>
      by_cases hb : 1 ≤ fix.error.line ∧
          fix.error.line - 1 < ((splitCL content.data).length : Int)
      · simp [applyFixes, applyLoop, hd, lookupA, setA, hb, hb.1, hb.2, hn]
      · simp [applyFixes, applyLoop, hd, lookupA, setA, hb, hn]

/-! ## Helper lemmas: association lists and the patch-apply loop -/

theorem lookupA_append_single {α : Type} (fm : List (String × α)) (k : String)
    (v : α) (q : String) :
    lookupA (fm ++ [(k, v)]) q =
      match lookupA fm q with
      | some x => some x
      | none => if k = q then some v else none := by
  induction fm with
  | nil => rfl
  | cons kv rest ih =>
    obtain ⟨k0, v0⟩ := kv
    by_cases h : k0 = q <;> simp [lookupA, h, ih]

theorem lookupA_setA {α : Type} (fm : List (String × α)) (k : String) (w : α)
    (q : String) :
    lookupA (setA fm k w) q =
      if k = q then
        (match lookupA fm k with | some _ => some w | none => none)
      else lookupA fm q := by
  induction fm with
  | nil => by_cases h : k = q <;> simp [setA, lookupA, h]
  | cons kv rest ih =>
    obtain ⟨k0, v0⟩ := kv
    by_cases h0 : k0 = k
    · subst h0
      by_cases hq : k0 = q <;> simp [setA, lookupA, hq, ih]
    · by_cases hq : k0 = q
      · subst hq
        have hk : ¬(k = k0) := fun e => h0 e.symm
        simp [setA, lookupA, h0, hk]
      · simp [setA, lookupA, h0, hq, ih]

/-- The audit trail of the patch-apply loop, projected to
(file, line, written text), is exactly the ordered sublist of Fixes whose
file exists and whose line index is in range. -/
theorem applyLoop_proj (disk : Disk) (fixes : List Fix)
    (fm : List (String × List (List Char))) (hInv : InvFM disk fm) :
    ((applyLoop disk fixes fm).2).map (fun a => (a.file, a.line, a.new)) =
      (fixes.filter (fun f => fixApplies disk f)).map
        (fun f => (f.error.file, f.error.line,
          String.mk (trimCL f.suggestion.data))) := by
  induction fixes generalizing fm with
  | nil => simp [applyLoop]
  | cons fix rest ih =>
    cases hd : disk fix.error.file with
    | none =>
      have ha : fixApplies disk fix = false := by simp [fixApplies, hd]
      simp [applyLoop, hd, ha, ih fm hInv]
    | some content =>
      set fm1 := (match lookupA fm fix.error.file with
        | some _ => fm
        | none => fm ++ [(fix.error.file, splitCL content.data)]) with hfm1
      have hlook : ∃ ls, lookupA fm1 fix.error.file = some ls ∧
          ls.length = (splitCL content.data).length := by
        rw [hfm1]
        cases hl : lookupA fm fix.error.file with
        | some ls =>
          obtain ⟨c, hc, hlen⟩ := hInv _ _ hl
          rw [hd] at hc
          exact ⟨ls, hl, by rw [hlen, Option.some.inj hc]⟩
        | none =>
          refine ⟨splitCL content.data, ?_, rfl⟩
          rw [lookupA_append_single, hl, if_pos rfl]
      have hInv1 : InvFM disk fm1 := by
        rw [hfm1]
        cases hl : lookupA fm fix.error.file with
        | some ls => exact hInv
        | none =>
          intro p ls hp
          rw [lookupA_append_single] at hp
          cases hq : lookupA fm p with
          | some x =>
            rw [hq] at hp
            exact hInv p ls (by rw [hq, ← Option.some.inj hp])
          | none =>
            rw [hq] at hp
            by_cases he : fix.error.file = p
            · rw [if_pos he] at hp
              exact ⟨content, he ▸ hd, by rw [← Option.some.inj hp]⟩
            · rw [if_neg he] at hp
              exact absurd hp (by simp)
      obtain ⟨ls, hls, hlen⟩ := hlook
      have hlines : (lookupA fm1 fix.error.file).getD [] = ls := by
        rw [hls]; rfl
      by_cases hb : 1 ≤ fix.error.line ∧
          fix.error.line - 1 < ((splitCL content.data).length : Int)
      · have ha : fixApplies disk fix = true := by simp [fixApplies, hd, hb]
        have hb' : 0 ≤ fix.error.line - 1 ∧
            fix.error.line - 1 < (ls.length : Int) := by
          rw [hlen]; omega
        have hInv2 : InvFM disk
            (setA fm1 fix.error.file (ls.set (fix.error.line - 1).toNat
              (trimCL fix.suggestion.data))) := by
          intro p ls2 hp
          rw [lookupA_setA] at hp
          by_cases he : fix.error.file = p
          · rw [if_pos he] at hp
            rw [hls] at hp
            refine ⟨content, he ▸ hd, ?_⟩
            rw [← Option.some.inj hp]
            simp [List.length_set, hlen]
          · rw [if_neg he] at hp
            exact hInv1 p ls2 hp
        simp only [applyLoop, hd, ← hfm1, hlines]
        rw [if_pos hb']
        simp only [List.map_cons]
        rw [ih _ hInv2]
        simp [List.filter_cons, ha]
      · have ha : fixApplies disk fix = false := by
          simp only [fixApplies, hd]
          simpa using hb
        have hb' : ¬(0 ≤ fix.error.line - 1 ∧
            fix.error.line - 1 < (ls.length : Int)) := by
          rw [hlen]; omega
        simp only [applyLoop, hd, ← hfm1, hlines]
        rw [if_neg hb']
        rw [ih _ hInv1]
        simp [List.filter_cons, ha]


/-! ## Helper lemmas: call counting in `getAIFixes` -/

theorem tryModels_calls_le (oracle : AIOracle) (idx : Nat)
    (fallback : Option String) (models : List String) :
    (tryModels oracle idx fallback models).2.length ≤ models.length := by
  induction models with
  | nil => simp [tryModels]
  | cons m rest ih =>
    cases ho : oracle idx m with
    | success body => simp [tryModels, ho]
    | oomFailure =>
      simp only [tryModels, ho]
      split
      · simpa using Nat.succ_le_succ ih
      · simp
    | timeoutFailure =>
      simp only [tryModels, ho]
      split
      · simpa using Nat.succ_le_succ ih
      · simp
    | otherFailure => simp [tryModels, ho]

theorem tryModels_calls_idx (oracle : AIOracle) (idx : Nat)
    (fallback : Option String) (models : List String) :
    ∀ c ∈ (tryModels oracle idx fallback models).2, c.1 = idx := by
  induction models with
  | nil => simp [tryModels]
  | cons m rest ih =>
    cases ho : oracle idx m with
    | success body => simp [tryModels, ho]
    | oomFailure =>
      simp only [tryModels, ho]
      split
      · intro c hc
        rcases List.mem_cons.mp hc with rfl | hc2
        · rfl
        · exact ih c hc2
      · simp
    | timeoutFailure =>
      simp only [tryModels, ho]
      split
      · intro c hc
        rcases List.mem_cons.mp hc with rfl | hc2
        · rfl
        · exact ih c hc2
      · simp
    | otherFailure => simp [tryModels, ho]

theorem modelsToTry_length_le (primary : String) (fallback : Option String) :
    (modelsToTry primary fallback).length ≤ 2 := by
  cases fallback with
  | none => simp [modelsToTry]
  | some f =>
    simp only [modelsToTry]
    split <;> simp

theorem handleError_calls_le (opts : Options) (oracle : AIOracle) (idx : Nat)
    (e : Issue) : (handleError opts oracle idx e).calls.length ≤ 2 := by
  rcases hr : tryModels oracle idx opts.fallbackModel
      (modelsToTry (if opts.aiModel = "" then "qwen2.5:1.5b" else opts.aiModel)
        opts.fallbackModel) with ⟨ir, calls⟩
  have hcl : calls.length ≤ 2 := by
    have h := tryModels_calls_le oracle idx opts.fallbackModel
      (modelsToTry (if opts.aiModel = "" then "qwen2.5:1.5b" else opts.aiModel)
        opts.fallbackModel)
    rw [hr] at h
    exact le_trans h (modelsToTry_length_le _ _)
  simp only [handleError, hr]
  cases ir with
  | gotBody body m =>
    by_cases hs : sanitizeFixSuggestion body = "" <;>
      simp [hs, ErrStep.calls, hcl]
  | exhausted => simp [ErrStep.calls, hcl]
  | threw k => cases k <;> simp [ErrStep.calls, hcl]

theorem handleError_calls_idx (opts : Options) (oracle : AIOracle) (idx : Nat)
    (e : Issue) : ∀ c ∈ (handleError opts oracle idx e).calls, c.1 = idx := by
  rcases hr : tryModels oracle idx opts.fallbackModel
      (modelsToTry (if opts.aiModel = "" then "qwen2.5:1.5b" else opts.aiModel)
        opts.fallbackModel) with ⟨ir, calls⟩
  have hcl : ∀ c ∈ calls, c.1 = idx := by
    have h := tryModels_calls_idx oracle idx opts.fallbackModel
      (modelsToTry (if opts.aiModel = "" then "qwen2.5:1.5b" else opts.aiModel)
        opts.fallbackModel)
    rw [hr] at h
    exact h
  simp only [handleError, hr]
  cases ir with
  | gotBody body m =>
    by_cases hs : sanitizeFixSuggestion body = "" <;>
      simpa [hs, ErrStep.calls] using hcl
  | exhausted => simpa [ErrStep.calls] using hcl
  | threw k => cases k <;> simpa [ErrStep.calls] using hcl

theorem processErrors_calls_le (opts : Options) (oracle : AIOracle)
    (idx : Nat) (l : List Issue) :
    (processErrors opts oracle idx l).2.length ≤ 2 * l.length := by
  induction l generalizing idx with
  | nil => simp [processErrors]
  | cons e rest ih =>
    have hc := handleError_calls_le opts oracle idx e
    cases hh : handleError opts oracle idx e with
    | produced fx calls =>
      rw [hh] at hc
      simp only [processErrors, hh, ErrStep.calls] at hc ⊢
      have := ih (idx + 1)
      simp only [List.length_append, List.length_cons]
      omega
    | skipped calls =>
      rw [hh] at hc
      simp only [processErrors, hh, ErrStep.calls] at hc ⊢
      have := ih (idx + 1)
      simp only [List.length_append, List.length_cons]
      omega
    | abortBatch calls =>
      rw [hh] at hc
      simp only [processErrors, hh, ErrStep.calls] at hc ⊢
      simp only [List.length_cons]
      omega

theorem processErrors_calls_idx (opts : Options) (oracle : AIOracle)
    (idx : Nat) (l : List Issue) :
    ∀ c ∈ (processErrors opts oracle idx l).2, c.1 < idx + l.length := by
  induction l generalizing idx with
  | nil => simp [processErrors]
  | cons e rest ih =>
    have hc := handleError_calls_idx opts oracle idx e
    cases hh : handleError opts oracle idx e with
    | produced fx calls =>
      rw [hh] at hc
      simp only [processErrors, hh]
      intro c hmem
      rcases List.mem_append.mp hmem with h1 | h2
      · have := hc c h1
        simp only [List.length_cons]
        omega
      · have := ih (idx + 1) c h2
        simp only [List.length_cons]
        omega
    | skipped calls =>
      rw [hh] at hc
      simp only [processErrors, hh]
      intro c hmem
      rcases List.mem_append.mp hmem with h1 | h2
      · have := hc c h1
        simp only [List.length_cons]
        omega
      · have := ih (idx + 1) c h2
        simp only [List.length_cons]
        omega
    | abortBatch calls =>
      rw [hh] at hc
      simp only [processErrors, hh]
      intro c hmem
      have := hc c hmem
      simp only [List.length_cons]
      omega

theorem errStep_calls_ite (c : Prop) [Decidable c] (x : Fix)
    (cs : List (Nat × String)) :
    (if c then ErrStep.skipped cs else ErrStep.produced x cs).calls = cs := by
  split <;> rfl


/-! ## Helper lemmas: character tests for `sanitizeLine` -/

theorem isDigit_ne {c x : Char} (h : c.isDigit = true)
    (hx : x.isDigit = false) : c ≠ x := by
  intro e
  subst e
  rw [h] at hx
  cases hx

theorem noteTest_head_false {c : Char} (h1 : c ≠ 'N') (h2 : c ≠ 'n')
    (t : List Char) : noteTest (c :: t) = false := by
  rcases t with _ | ⟨a, _ | ⟨b, _ | ⟨d, _ | ⟨e, rest⟩⟩⟩⟩ <;>
    simp [noteTest, h1, h2]

theorem slashNoteTest_head_false {c : Char} (h : c ≠ '/') (t : List Char) :
    slashNoteTest (c :: t) = false := by
  rcases t with _ | ⟨a, rest⟩ <;> simp [slashNoteTest, h]

theorem trimCL_cons_ws {c : Char} (h : isWS c = true) (l : List Char) :
    trimCL (c :: l) = trimCL l := by
  simp [trimCL, List.dropWhile_cons, h]

theorem dropWhile_digits_append {ds : List Char}
    (h : ∀ c ∈ ds, c.isDigit = true) (r : List Char) :
    (ds ++ ':' :: r).dropWhile Char.isDigit = ':' :: r := by
  induction ds with
  | nil => simp [List.dropWhile_cons]
  | cons d ds ih =>
    have hd : d.isDigit = true := h d (List.mem_cons_self _ _)
    simp [List.dropWhile_cons, hd,
      ih (fun c hc => h c (List.mem_cons_of_mem _ hc))]

theorem startsW_head_false {p c : Char} {ps cs : List Char} (h : p ≠ c) :
    startsW (p :: ps) (c :: cs) = false := by
  simp [startsW, h]


/-! ## Helper lemmas: the include-set accumulator -/

theorem nodup_addInc (acc : List String) (n : List Char) (h : acc.Nodup) :
    (addInc acc n).Nodup := by
  simp only [addInc]
  split
  · exact h
  · next hc =>
    have hs : "#include <" ++ String.mk n ++ ">" ∉ acc := by
      intro hm
      exact hc (by simpa using hm)
    simp [List.nodup_append, h, hs]

theorem mem_addInc {acc : List String} {n : List Char} {s : String}
    (h : s ∈ addInc acc n) :
    s ∈ acc ∨ s = "#include <" ++ String.mk n ++ ">" := by
  simp only [addInc] at h
  split at h
  · exact Or.inl h
  · rcases List.mem_append.mp h with h2 | h2
    · exact Or.inl h2
    · exact Or.inr (List.mem_singleton.mp h2)

theorem foldl_addInc_nodup (names : List (List Char)) :
    ∀ acc : List String, acc.Nodup → (names.foldl addInc acc).Nodup := by
  induction names with
  | nil => intro acc h; exact h
  | cons n ns ih => intro acc h; exact ih _ (nodup_addInc acc n h)

theorem mem_foldl_addInc (names : List (List Char)) :
    ∀ (acc : List String) (s : String), s ∈ names.foldl addInc acc →
      s ∈ acc ∨ ∃ n ∈ names, s = "#include <" ++ String.mk n ++ ">" := by
  induction names with
  | nil => intro acc s h; exact Or.inl h
  | cons n ns ih =>
    intro acc s h
    rcases ih _ s h with h1 | ⟨n', hn', rfl⟩
    · rcases mem_addInc h1 with h2 | h2
      · exact Or.inl h2
      · exact Or.inr ⟨n, List.mem_cons_self _ _, h2⟩
    · exact Or.inr ⟨n', List.mem_cons_of_mem _ hn', rfl⟩

theorem extractIncludes_nodup (snapshot : List (String × String))
    (files : List String) : (extractIncludes snapshot files).Nodup := by
  suffices hgen : ∀ (fs : List String) (acc : List String), acc.Nodup →
      (fs.foldl (extractFileStep snapshot) acc).Nodup by
    exact hgen files [] List.nodup_nil
  intro fs
  induction fs with
  | nil => intro acc h; exact h
  | cons f fs ih =>
    intro acc h
    rw [List.foldl_cons]
    refine ih _ ?_
    simp only [extractFileStep]
    cases hl : lookupA snapshot f with
    | none => exact h
    | some content => exact foldl_addInc_nodup _ acc h

theorem extractIncludes_shape (snapshot : List (String × String))
    (files : List String) :
    ∀ s ∈ extractIncludes snapshot files,
      ∃ n ∈ includedNames snapshot files,
        s = "#include <" ++ String.mk n ++ ">" := by
  suffices hgen : ∀ (fs : List String), fs ⊆ files →
      ∀ acc : List String,
      (∀ s ∈ acc, ∃ n ∈ includedNames snapshot files,
        s = "#include <" ++ String.mk n ++ ">") →
      ∀ s ∈ fs.foldl (extractFileStep snapshot) acc,
        ∃ n ∈ includedNames snapshot files,
          s = "#include <" ++ String.mk n ++ ">" by
    exact hgen files (fun x hx => hx) [] (by simp)
  intro fs
  induction fs with
  | nil => intro _ acc hacc s hs; exact hacc s hs
  | cons f fs ih =>
    intro hsub acc hacc s hs
    have hf : f ∈ files := hsub (List.mem_cons_self _ _)
    have hsub' : fs ⊆ files := fun x hx => hsub (List.mem_cons_of_mem _ hx)
    rw [List.foldl_cons] at hs
    refine ih hsub' _ ?_ s hs
    intro s2 hs2
    simp only [extractFileStep] at hs2
    cases hl : lookupA snapshot f with
    | none =>
      rw [hl] at hs2
      exact hacc s2 hs2
    | some content =>
      rw [hl] at hs2
      rcases mem_foldl_addInc _ _ _ hs2 with h1 | ⟨n, hn, rfl⟩
      · exact hacc s2 h1
      · refine ⟨n, ?_, rfl⟩
        simp only [includedNames, List.mem_flatMap]
        refine ⟨f, hf, ?_⟩
        simp only [hl]
        simpa using hn


/-! ## Helper lemmas: the C8 invariant across the passes -/
theorem stOk_pushErr {st : TState} {i : Issue} (h : StOk st)
    (h1 : i.severity = "error") (h2 : 0 ≤ i.line) : StOk (pushErr st i) := by
  refine ⟨?_, h.2⟩
  intro j hj
  rcases List.mem_append.mp hj with hj1 | hj2
  · exact h.1 j hj1
  · rcases List.mem_singleton.mp hj2 with rfl
    exact ⟨h1, h2⟩

theorem stOk_pushWarn {st : TState} {i : Issue} (h : StOk st)
    (h1 : i.severity = "warning") (h2 : 0 ≤ i.line) : StOk (pushWarn st i) := by
  refine ⟨h.1, ?_⟩
  intro j hj
  rcases List.mem_append.mp hj with hj1 | hj2
  · exact h.2 j hj1
  · rcases List.mem_singleton.mp hj2 with rfl
    exact ⟨h1, h2⟩

theorem stOk_foldl {α : Type} {f : TState → α → TState} :
    ∀ (l : List α), (∀ a ∈ l, ∀ s, StOk s → StOk (f s a)) →
      ∀ st, StOk st → StOk (l.foldl f st) := by
  intro l
  induction l with
  | nil => intro _ st h; exact h
  | cons a t ih =>
    intro hf st h
    rw [List.foldl_cons]
    exact ih (fun b hb s hs => hf b (List.mem_cons_of_mem _ hb) s hs) _
      (hf a (List.mem_cons_self _ _) st h)

theorem syntaxLineIssues_ok (fname : String) (idx : Nat) (line : List Char) :
    ∀ i ∈ syntaxLineIssues fname idx line,
      i.severity = "error" ∧ 0 ≤ i.line := by
  intro i hi
  simp only [syntaxLineIssues, List.mem_map] at hi
  obtain ⟨ch, _, rfl⟩ := hi
  exact ⟨rfl, show (0 : Int) ≤ (idx : Int) + 1 by omega⟩

theorem checkSyntax_stOk (snapshot : List (String × String))
    (files : List String) {st : TState} (h : StOk st) :
    StOk (checkSyntax snapshot st files) := by
  refine stOk_foldl files ?_ st h
  intro f _ s hs
  cases hl : lookupA snapshot f with
  | none => simpa [hl] using hs
  | some content =>
    simp only [hl]
    refine stOk_foldl _ ?_ s hs
    intro il _ s2 hs2
    refine stOk_foldl _ ?_ s2 hs2
    intro i hi s3 hs3
    obtain ⟨h1, h2⟩ := syntaxLineIssues_ok (basenameS f) il.1 il.2 i hi
    exact stOk_pushErr hs3 h1 h2

theorem parseCompilerErrors_stOk (snapshot : List (String × String))
    (files : List String) (output : String) {st : TState} (h : StOk st) :
    StOk (parseCompilerErrors snapshot files st output) := by
  simp only [parseCompilerErrors]
  have h1 : StOk ((scanMatches tryCompMatch output.data.length output.data).foldl
      (fun s m =>
        if m.sev = "error" then pushErr s (compIssue snapshot files m)
        else pushWarn s (compIssue snapshot files m)) st) := by
    refine stOk_foldl _ ?_ st h
    intro m _ s hs
    by_cases hsev : m.sev = "error"
    · rw [if_pos hsev]
      refine stOk_pushErr hs ?_ ?_
      · simp [compIssue, hsev]
      · simp [compIssue]
    · rw [if_neg hsev]
      refine stOk_pushWarn hs ?_ ?_
      · simp [compIssue, hsev]
      · simp [compIssue]
  split
  · refine stOk_foldl _ ?_ _ h1
    intro l _ s hs
    exact stOk_pushErr hs rfl (show (0 : Int) ≤ (0 : Int) by omega)
  · exact h1

theorem parseCppcheckOutput_stOk (snapshot : List (String × String))
    (files : List String) (output : String) {st : TState} (h : StOk st) :
    StOk (parseCppcheckOutput snapshot files st output) := by
  refine stOk_foldl _ ?_ st h
  intro m _ s hs
  by_cases hsev : m.sev = "error"
  · rw [if_pos hsev]
    refine stOk_pushErr hs ?_ ?_
    · simp [cppIssue, hsev]
    · simp [cppIssue]
  · rw [if_neg hsev]
    refine stOk_pushWarn hs ?_ ?_
    · simp [cppIssue, hsev]
    · simp [cppIssue]

theorem parseClangTidyOutput_stOk (snapshot : List (String × String))
    (files : List String) (output : String) {st : TState} (h : StOk st) :
    StOk (parseClangTidyOutput snapshot files st output) := by
  refine stOk_foldl _ ?_ st h
  intro m _ s hs
  by_cases hsev : m.sev = "error"
  · rw [if_pos hsev]
    refine stOk_pushErr hs ?_ ?_
    · simp [tidyIssue, hsev]
    · simp [tidyIssue]
  · rw [if_neg hsev]
    refine stOk_pushWarn hs ?_ ?_
    · simp [tidyIssue, hsev]
    · simp [tidyIssue]

theorem qualityLineIssues_ok (fname : String) (idx : Nat) (line : List Char) :
    ∀ i ∈ qualityLineIssues fname idx line,
      i.severity = "warning" ∧ 0 ≤ i.line := by
  intro i hi
  simp only [qualityLineIssues] at hi
  rcases List.mem_append.mp hi with h1 | h1
  · split at h1
    · rcases List.mem_singleton.mp h1 with rfl
      exact ⟨rfl, show (0 : Int) ≤ (idx : Int) + 1 by omega⟩
    · simp at h1
  · split at h1
    · rcases List.mem_singleton.mp h1 with rfl
      exact ⟨rfl, show (0 : Int) ≤ (idx : Int) + 1 by omega⟩
    · simp at h1

theorem checkCodeQuality_stOk (snapshot : List (String × String))
    (files : List String) {st : TState} (h : StOk st) :
    StOk (checkCodeQuality snapshot st files) := by
  refine stOk_foldl files ?_ st h
  intro f _ s hs
  cases hl : lookupA snapshot f with
  | none => simpa [hl] using hs
  | some content =>
    simp only [hl]
    refine stOk_foldl _ ?_ s hs
    intro il _ s2 hs2
    refine stOk_foldl _ ?_ s2 hs2
    intro i hi s3 hs3
    obtain ⟨h1, h2⟩ := qualityLineIssues_ok (basenameS f) il.1 il.2 i hi
    exact stOk_pushWarn hs3 h1 h2

theorem checkCompilation_stOk (snapshot : List (String × String))
    (tools : ToolOutputs) (files : List String) {st : TState} (h : StOk st) :
    StOk (checkCompilation snapshot tools st files) := by
  simp only [checkCompilation]
  split
  · exact h
  · cases tools.compiler with
    | none => exact h
    | some p =>
      obtain ⟨status, out⟩ := p
      show StOk (if status ≠ 0 then parseCompilerErrors snapshot files st out
        else st)
      split
      · exact parseCompilerErrors_stOk snapshot files out h
      · exact h

theorem runCppcheck_stOk (snapshot : List (String × String))
    (tools : ToolOutputs) (files : List String) {st : TState} (h : StOk st) :
    StOk (runCppcheck snapshot tools st files) := by
  simp only [runCppcheck]
  split
  · exact h
  · cases tools.cppcheck with
    | none => exact h
    | some out =>
      show StOk (if out ≠ "" then parseCppcheckOutput snapshot files st out
        else st)
      split
      · exact parseCppcheckOutput_stOk snapshot files out h
      · exact h

theorem runClangTidy_stOk (snapshot : List (String × String))
    (tools : ToolOutputs) (files : List String) {st : TState} (h : StOk st) :
    StOk (runClangTidy snapshot tools st files) := by
  simp only [runClangTidy]
  split
  · exact h
  · cases tools.clangTidy with
    | none => exact h
    | some out =>
      show StOk (if out ≠ "" then parseClangTidyOutput snapshot files st out
        else st)
      split
      · exact parseClangTidyOutput_stOk snapshot files out h
      · exact h

theorem stOk_ite (c : Prop) [Decidable c] {s1 s2 : TState} (h1 : StOk s1)
    (h2 : StOk s2) : StOk (if c then s1 else s2) := by
  split <;> assumption

theorem analyzeCode_stOk (opts : Options) (st : TState)
    (snapshot : List (String × String)) (filesArg : Option (List String))
    (tools : ToolOutputs) :
    StOk (analyzeCode opts st snapshot filesArg tools).1 := by
  have h0 : StOk ({ errors := [], warnings := [], fixes := [] } : TState) :=
    ⟨by simp, by simp⟩
  simp only [analyzeCode]
  refine checkCodeQuality_stOk snapshot _ ?_
  refine stOk_ite _ ?_ ?_
  · exact runClangTidy_stOk snapshot tools _
      (runCppcheck_stOk snapshot tools _
        (stOk_ite _ (checkCompilation_stOk snapshot tools _
          (checkSyntax_stOk snapshot _ h0))
          (checkSyntax_stOk snapshot _ h0)))
  · exact stOk_ite _ (checkCompilation_stOk snapshot tools _
      (checkSyntax_stOk snapshot _ h0))
      (checkSyntax_stOk snapshot _ h0)

/-! ## Claim theorems -/

/-- C1, counterexample: the claim asserts idempotence of `applyFixes` for
every Fix, *including* Fixes whose suggestion spans multiple lines.  For the
two-line suggestion `X\nY` aimed at `a.c:2` of the file `a\nb\nc`, one
application writes `a\nX\nY\nc`, but a second application re-splits that
file (now four lines), overwrites slot 2 with `X\nY` again and leaves the
old `Y` behind, writing `a\nX\nY\nY\nc` — so twice ≠ once. -/
theorem applyFixes_multiline_not_idempotent :
    (applyFixes diskABC [fixMulti]).1 "a.c" = some "a\nX\nY\nc" ∧
    (applyFixes (applyFixes diskABC [fixMulti]).1 [fixMulti]).1 "a.c" =
      some "a\nX\nY\nY\nc" ∧
    some "a\nX\nY\nY\nc" ≠ some "a\nX\nY\nc" := by
  refine ⟨by decide, by decide, by decide⟩

/-- C1, amended: applying a given Fix twice yields the same on-disk content
as applying it once *provided the trimmed suggestion text contains no
newline* (each application replaces exactly one line slot); multi-line
suggestions are flattened into that slot and break idempotence (see the
counterexample). -/
theorem applyFixes_idempotent_of_single_line (disk : Disk) (fix : Fix)
    (h : '\n' ∉ trimCL fix.suggestion.data) (n : String) :
    (applyFixes (applyFixes disk [fix]).1 [fix]).1 n =
      (applyFixes disk [fix]).1 n := by
  have h1 := congrFun (applyFixes_single_eq disk fix)
  have h2 := congrFun (applyFixes_single_eq (applyFixes disk [fix]).1 fix)
  rw [h2 n]
  cases hd : disk fix.error.file with
  | none =>
    have hp : (applyFixes disk [fix]).1 fix.error.file = none := by
      rw [h1]; simp [hd]
    rw [hp]
  | some content =>
    by_cases hb : 1 ≤ fix.error.line ∧
        fix.error.line - 1 < ((splitCL content.data).length : Int)
    · have hL' : splitCL (String.mk (joinCL ((splitCL content.data).set
          (fix.error.line.toNat - 1) (trimCL fix.suggestion.data)))).data =
          (splitCL content.data).set (fix.error.line.toNat - 1)
            (trimCL fix.suggestion.data) := by
        apply splitCL_joinCL
        · intro he
          have h0 : splitCL content.data = [] := by
            have hlen := congrArg List.length he
            simp [List.length_set] at hlen
            exact hlen
          exact splitCL_ne_nil content.data h0
        · intro l hl
          rcases List.mem_or_eq_of_mem_set hl with hm | rfl
          · exact newline_not_mem_splitCL hm
          · exact h
      have hp : (applyFixes disk [fix]).1 fix.error.file =
          some (String.mk (joinCL ((splitCL content.data).set
            (fix.error.line.toNat - 1) (trimCL fix.suggestion.data)))) := by
        rw [h1]; simp [hd, hb]
      rcases eq_or_ne fix.error.file n with rfl | hn
      · rw [hp]
        simp [hL', List.length_set, List.set_set, hb.1, hb.2]
      · rw [hp]
        simp [hn]
    · have hp : (applyFixes disk [fix]).1 fix.error.file = some content := by
        rw [h1]; simp [hd, hb]
      rcases eq_or_ne fix.error.file n with rfl | hn
      · rw [hp]
        simp [hb]
      · rw [hp]
        simp [hn]

/-- Witness for the amended C1 theorem: the single-line Fix `X;` applied to
`a.c:2` twice leaves the same content as applying it once. -/
theorem applyFixes_idempotent_of_single_line_witness :
    (applyFixes (applyFixes diskABC [fixSingle]).1 [fixSingle]).1 "a.c" =
      (applyFixes diskABC [fixSingle]).1 "a.c" :=
  applyFixes_idempotent_of_single_line diskABC fixSingle (by decide) "a.c"

/-- C9: `applyFixes` silently skips a Fix whose target file does not exist
and a Fix whose `line - 1` is out of the line array's bounds; the returned
audit list, projected to (file, line, written text), consists exactly of
the Fixes that pass both tests, in order — so a skipped Fix is absent from
it.  The second conjunct is Scenario F: a Fix at line 1000 of a 10-line
file is skipped, the audit list is empty and the file is left with its
original content. -/
theorem applyFixes_skip_characterization :
    (∀ (disk : Disk) (fixes : List Fix),
      ((applyFixes disk fixes).2).map (fun a => (a.file, a.line, a.new)) =
        (fixes.filter (fun f => fixApplies disk f)).map
          (fun f => (f.error.file, f.error.line,
            String.mk (trimCL f.suggestion.data)))) ∧
    (applyFixes diskTen [fixLine1000]).2 = [] ∧
    (applyFixes diskTen [fixLine1000]).1 "b.c" =
      some "0\n1\n2\n3\n4\n5\n6\n7\n8\n9" := by
  refine ⟨fun disk fixes => ?_, by decide, by decide⟩
  have h := applyLoop_proj disk fixes []
    (by intro p ls hp; simp [lookupA] at hp)
  simpa [applyFixes] using h

/-- C2, amended: with a distinct fallback model configured, a
resource-exhaustion or timeout failure of the primary call triggers exactly
one fallback attempt for that error; a *timeout* on the fallback skips the
Fix and the batch continues; a *resource-exhaustion* failure on the
fallback — like any other non-timeout failure — aborts the remaining batch;
in every case the result is returned normally (the embedding is a total
function), the Fixes already produced are kept (`produced` conses onto the
rest) and an abort only discards the unprocessed remainder. -/
theorem getAIFixes_retry_policy (opts : Options) (oracle : AIOracle)
    (idx : Nat) (e : Issue) (f : String)
    (hfb : opts.fallbackModel = some f) (hne : f ≠ opts.aiModel)
    (hp : opts.aiModel ≠ "") :
    ((oracle idx opts.aiModel = .oomFailure ∨
        oracle idx opts.aiModel = .timeoutFailure) →
      (handleError opts oracle idx e).calls =
        [(idx, opts.aiModel), (idx, f)]) ∧
    ((oracle idx opts.aiModel = .oomFailure ∨
        oracle idx opts.aiModel = .timeoutFailure) →
      oracle idx f = .timeoutFailure →
      handleError opts oracle idx e =
        .skipped [(idx, opts.aiModel), (idx, f)]) ∧
    ((oracle idx opts.aiModel = .oomFailure ∨
        oracle idx opts.aiModel = .timeoutFailure) →
      oracle idx f = .oomFailure →
      handleError opts oracle idx e =
        .abortBatch [(idx, opts.aiModel), (idx, f)]) ∧
    (oracle idx opts.aiModel = .otherFailure →
      handleError opts oracle idx e = .abortBatch [(idx, opts.aiModel)]) ∧
    (∀ (rest : List Issue) (cs : List (Nat × String)),
      handleError opts oracle idx e = .skipped cs →
      (processErrors opts oracle idx (e :: rest)).1 =
        (processErrors opts oracle (idx + 1) rest).1) ∧
    (∀ (rest : List Issue) (cs : List (Nat × String)),
      handleError opts oracle idx e = .abortBatch cs →
      (processErrors opts oracle idx (e :: rest)).1 = []) ∧
    (∀ (rest : List Issue) (cs : List (Nat × String)) (fx : Fix),
      handleError opts oracle idx e = .produced fx cs →
      (processErrors opts oracle idx (e :: rest)).1 =
        fx :: (processErrors opts oracle (idx + 1) rest).1) := by
  have hne' : opts.aiModel ≠ f := fun h => hne h.symm
  have hmodels : modelsToTry opts.aiModel (some f) = [opts.aiModel, f] := by
    simp [modelsToTry, hne]
  refine ⟨?_, ?_, ?_, ?_, ?_, ?_, ?_⟩
  · intro hpm
    rcases hpm with h1 | h1 <;>
      cases ho2 : oracle idx f <;>
        simp [handleError, hfb, hp, hmodels, tryModels, h1, ho2, hne, hne'] <;>
        (first | rfl | (split <;> rfl))
  · intro hpm h2
    rcases hpm with h1 | h1 <;>
      simp [handleError, hfb, hp, hmodels, tryModels, h1, h2, hne, hne']
  · intro hpm h2
    rcases hpm with h1 | h1 <;>
      simp [handleError, hfb, hp, hmodels, tryModels, h1, h2, hne, hne']
  · intro h1
    simp [handleError, hfb, hp, hmodels, tryModels, h1, hne, hne']
  · intro rest cs h
    simp [processErrors, h]
  · intro rest cs h
    simp [processErrors, h]
  · intro rest cs fx h
    simp [processErrors, h]

/-- C2, counterexample: the claim says that when the fallback call also
fails with a resource-exhaustion signal, the Fix is skipped *and the batch
continues*.  With both models exhausting memory on error 0 and the primary
model answering valid code for error 1, continuing would produce the Fix
for error 1 (its sanitized suggestion is non-empty); the code instead
aborts the batch and returns no Fixes at all. -/
theorem getAIFixes_fallback_oom_aborts_batch :
    (getAIFixes optsPF oracleOomThenGood [mkIssue 0, mkIssue 1]).1 = [] ∧
    oracleOomThenGood 0 "p" = .oomFailure ∧
    oracleOomThenGood 0 "f" = .oomFailure ∧
    oracleOomThenGood 1 "p" = .success "int x = 0;" ∧
    sanitizeFixSuggestion "int x = 0;" ≠ "" := by
  refine ⟨by decide, rfl, rfl, rfl, by decide⟩

/-- Witness for the amended C2 theorem at concrete oracles: double timeout
skips and continues, out-of-memory on the fallback aborts, a hard failure
on the primary aborts, and an aborted batch yields no Fixes from the
remaining errors. -/
theorem getAIFixes_retry_policy_witness :
    handleError optsPF oracleTimeout 0 (mkIssue 0) =
      .skipped [(0, "p"), (0, "f")] ∧
    handleError optsPF oracleOomThenGood 0 (mkIssue 0) =
      .abortBatch [(0, "p"), (0, "f")] ∧
    handleError optsPF oracleOther 0 (mkIssue 0) =
      .abortBatch [(0, "p")] ∧
    (processErrors optsPF oracleOther 0 (mkIssue 0 :: [mkIssue 1])).1 = [] :=
  ⟨(getAIFixes_retry_policy optsPF oracleTimeout 0 (mkIssue 0) "f" rfl
      (by decide) (by decide)).2.1 (Or.inr rfl) rfl,
   (getAIFixes_retry_policy optsPF oracleOomThenGood 0 (mkIssue 0) "f" rfl
      (by decide) (by decide)).2.2.1 (Or.inl rfl) rfl,
   (getAIFixes_retry_policy optsPF oracleOther 0 (mkIssue 0) "f" rfl
      (by decide) (by decide)).2.2.2.1 rfl,
   (getAIFixes_retry_policy optsPF oracleOther 0 (mkIssue 0) "f" rfl
      (by decide) (by decide)).2.2.2.2.2.1 [mkIssue 1] [(0, "p")]
     ((getAIFixes_retry_policy optsPF oracleOther 0 (mkIssue 0) "f" rfl
        (by decide) (by decide)).2.2.2.1 rfl)⟩

/-- C3, amended: when 8 errors are supplied to `getAIFixes`, only the first
5 in supplied order are processed (every attempted call targets an error
position < 5), and at most two inference-service calls are attempted per
processed error — so at most 10 calls in total, not 5: the fallback retry
doubles the per-error call budget. -/
theorem getAIFixes_call_count_bound (opts : Options) (oracle : AIOracle)
    (errors : List Issue) (_h : errors.length = 8) :
    (getAIFixes opts oracle errors).2.length ≤ 10 ∧
    ∀ c ∈ (getAIFixes opts oracle errors).2, c.1 < 5 := by
  simp only [getAIFixes]
  by_cases hai : opts.useAI = true
  · simp only [hai, if_true]
    have hlen : (errors.take 5).length ≤ 5 := by
      simp [List.length_take]
    constructor
    · have hle := processErrors_calls_le opts oracle 0 (errors.take 5)
      omega
    · intro c hc
      have := processErrors_calls_idx opts oracle 0 (errors.take 5) c hc
      omega
  · simp [hai]

/-- C3, counterexample: with a distinct fallback model configured and every
call timing out, 8 supplied errors lead to exactly 10 HTTP POSTs (primary
plus fallback for each of the first 5 errors), contradicting the claimed
bound of 5. -/
theorem getAIFixes_call_count_exceeds_five :
    issues8.length = 8 ∧
    (getAIFixes optsPF oracleTimeout issues8).2.length = 10 ∧
    ¬((getAIFixes optsPF oracleTimeout issues8).2.length ≤ 5) := by
  refine ⟨by decide, by decide, by decide⟩

/-- Witness for the amended C3 theorem at the concrete 8-error batch. -/
theorem getAIFixes_call_count_bound_witness :
    (getAIFixes optsPF oracleTimeout issues8).2.length ≤ 10 ∧
    ∀ c ∈ (getAIFixes optsPF oracleTimeout issues8).2, c.1 < 5 :=
  getAIFixes_call_count_bound optsPF oracleTimeout issues8 (by decide)

/-- C6: the per-line step of `sanitizeFixSuggestion` (a) strips a leading
bare numeric prefix such as `12: ` from a line, leaving exactly the trimmed
remainder, (b) strips nothing from a surviving line that does not carry
such a prefix (its trimmed form does not begin with a digit), and (c)
passes a line beginning with `#` through unchanged — the `unless the line
begins with '#'` guard, which in fact can never fire since no line can
begin with both a digit and `#`, and `#` lines fall through every other
filter too. -/
theorem sanitize_numeric_prefix_rule :
    (∀ (ds rest : List Char) (line : List Char),
      line = ds ++ ':' :: ' ' :: rest → ds ≠ [] →
      (∀ c ∈ ds, c.isDigit = true) → rest ≠ [] → trimCL rest = rest →
      trimCL line = line →
      sanitizeLine line = some rest) ∧
    (∀ line : List Char,
      (trimCL line).isEmpty = false →
      startsW ['>', '>', '>'] (trimCL line) = false →
      startsW ['`', '`', '`'] (trimCL line) = false →
      noteTest (trimCL line) = false →
      slashNoteTest (trimCL line) = false →
      (match trimCL line with | c :: _ => c.isDigit | [] => false) = false →
      sanitizeLine line = some line) ∧
    (∀ (line t : List Char), trimCL line = '#' :: t →
      sanitizeLine line = some line) := by
  refine ⟨?_, ?_, ?_⟩
  · intro ds rest line hline hds hdig hrest htrrest htr
    rcases ds with _ | ⟨d0, ds'⟩
    · exact absurd rfl hds
    subst hline
    rw [List.cons_append] at htr
    have hd0 : d0.isDigit = true := hdig d0 (List.mem_cons_self _ _)
    have hB1 : startsW ['>', '>', '>'] (d0 :: (ds' ++ ':' :: ' ' :: rest)) =
        false := startsW_head_false ((isDigit_ne hd0 (by decide)).symm)
    have hB2 : startsW ['`', '`', '`'] (d0 :: (ds' ++ ':' :: ' ' :: rest)) =
        false := startsW_head_false ((isDigit_ne hd0 (by decide)).symm)
    have hB3 : noteTest (d0 :: (ds' ++ ':' :: ' ' :: rest)) = false :=
      noteTest_head_false (isDigit_ne hd0 (by decide))
        (isDigit_ne hd0 (by decide)) _
    have hB4 : slashNoteTest (d0 :: (ds' ++ ':' :: ' ' :: rest)) = false :=
      slashNoteTest_head_false (isDigit_ne hd0 (by decide)) _
    have hB5 : startsW ['#'] (d0 :: (ds' ++ ':' :: ' ' :: rest)) = false :=
      startsW_head_false ((isDigit_ne hd0 (by decide)).symm)
    have hdrop : dropNumPref (d0 :: (ds' ++ ':' :: ' ' :: rest)) =
        ' ' :: rest := by
      simp only [dropNumPref]
      rw [show (d0 :: (ds' ++ ':' :: ' ' :: rest)) =
        ((d0 :: ds') ++ ':' :: ' ' :: rest) from rfl]
      rw [dropWhile_digits_append hdig]
      simp [List.dropWhile_cons, isWS]
    simp only [sanitizeLine, List.cons_append, htr, hB1, hB2, hB3, hB4, hB5,
      hdrop, hd0, List.isEmpty_cons, Bool.false_eq_true, if_false,
      Bool.not_false, Bool.and_true, if_true]
    rw [trimCL_cons_ws (by decide), htrrest]
    simp [hrest]
  · intro line h1 h2 h3 h4 h5 h6
    simp [sanitizeLine, h1, h2, h3, h4, h5, h6]
  · intro line t htr
    have h1 : startsW ['>', '>', '>'] ('#' :: t) = false :=
      startsW_head_false (by decide)
    have h2 : startsW ['`', '`', '`'] ('#' :: t) = false :=
      startsW_head_false (by decide)
    have h3 : noteTest ('#' :: t) = false :=
      noteTest_head_false (by decide) (by decide) t
    have h4 : slashNoteTest ('#' :: t) = false :=
      slashNoteTest_head_false (by decide) t
    have h5 : ('#' : Char).isDigit = false := by decide
    simp [sanitizeLine, htr, h1, h2, h3, h4, h5]

/-- Witness for the C6 theorem: `12: int x = 0;` loses its prefix,
`int q;` and `#define FOO 1` pass through unchanged. -/
theorem sanitize_numeric_prefix_rule_witness :
    sanitizeLine (['1', '2'] ++ ':' :: ' ' :: "int x = 0;".data) =
      some "int x = 0;".data ∧
    sanitizeLine "int q;".data = some "int q;".data ∧
    sanitizeLine "#define FOO 1".data = some "#define FOO 1".data :=
  ⟨sanitize_numeric_prefix_rule.1 ['1', '2'] "int x = 0;".data
      (['1', '2'] ++ ':' :: ' ' :: "int x = 0;".data) rfl (by decide)
      (by decide) (by decide) (by decide) (by decide),
   sanitize_numeric_prefix_rule.2.1 "int q;".data (by decide)
      (by decide) (by decide) (by decide) (by decide) (by decide),
   sanitize_numeric_prefix_rule.2.2 "#define FOO 1".data
      "define FOO 1".data (by decide)⟩

/-- C4, counterexample: the claim says the sanitized output is *exactly*
the concatenated fence contents.  For a fence whose body contains a blank
line, the line-level cleanup (which also runs over fence contents) drops
the blank line, so the output differs from the fence contents. -/
theorem sanitize_fence_content_filtered :
    sanitizeFixSuggestion "```\nint a;\n\nint b;\n```" = "int a;\nint b;" ∧
    sanitizeFixSuggestion "```\nint a;\n\nint b;\n```" ≠
      "int a;\n\nint b;" := by
  refine ⟨by decide, by decide⟩

/-- C4, amended: on a response containing fenced code blocks,
`sanitizeFixSuggestion` keeps the concatenated fence contents *as further
filtered by the line-level cleanup* (blank/annotation/Note lines dropped,
numeric prefixes stripped), and discards everything outside the fences —
the result depends only on the list of fenced blocks (third conjunct);
Scenario E holds exactly (first conjunct), and a trailing `Note: ...` line
outside the fence is discarded (second conjunct). -/
theorem sanitize_fences_only :
    sanitizeFixSuggestion "Here is the fix:\n```c\nint x = 0;\n```" =
      "int x = 0;" ∧
    sanitizeFixSuggestion "```c\nint y = 1;\n```\nNote: check this" =
      "int y = 1;" ∧
    (∀ r1 r2 : String,
      findFences (trimCL r1.data).length (trimCL r1.data) ≠ [] →
      findFences (trimCL r1.data).length (trimCL r1.data) =
        findFences (trimCL r2.data).length (trimCL r2.data) →
      sanitizeFixSuggestion r1 = sanitizeFixSuggestion r2) := by
  refine ⟨by decide, by decide, ?_⟩
  intro r1 r2 hne heq
  simp only [sanitizeFixSuggestion]
  rw [← heq]
  rcases hf : findFences (trimCL r1.data).length (trimCL r1.data) with _ | ⟨b, bs⟩
  · exact absurd hf hne
  · simp [hf]

/-- Witness for the amended C4 theorem: two responses with the same single
fenced block — one with leading prose, one with a trailing Note — sanitize
identically. -/
theorem sanitize_fences_only_witness :
    sanitizeFixSuggestion "x\n```c\na;\n```" =
      sanitizeFixSuggestion "```c\na;\n```\nNote: z" :=
  sanitize_fences_only.2.2 "x\n```c\na;\n```" "```c\na;\n```\nNote: z"
    (by decide) (by decide)

/-- C7: for the file `a.c` whose content is `int x\n`, the syntax pass
emits exactly one Issue — `{file := a.c, line := 1, type := syntax,
severity := error}` (with column 5 and the offending line as `code`) — and
a line whose trimmed form ends in the line-continuation `\` is exempt from
all five syntax checks. -/
theorem checkSyntax_scenarioA_and_exemption :
    (checkSyntax [("a.c", "int x\n")] ⟨[], [], []⟩ ["a.c"]).errors =
      [{ file := "a.c", line := 1, column := 5,
         message := "Missing semicolon or closing brace", type := "syntax",
         code := "int x", severity := "error" }] ∧
    (∀ (fname : String) (idx : Nat) (line : List Char),
      endsW ['\\'] (trimCL line) = true →
      syntaxLineIssues fname idx line = []) := by
  refine ⟨by decide, ?_⟩
  intro fname idx line h
  simp [syntaxLineIssues, h]

/-- Witness for the C7 theorem: a concrete continuation line yields no
syntax Issues. -/
theorem checkSyntax_scenarioA_witness :
    syntaxLineIssues "f.c" 0 "int x = 1 \\".data = [] :=
  checkSyntax_scenarioA_and_exemption.2 "f.c" 0 "int x = 1 \\".data (by decide)

/-- C10: `analyzeCode` overwrites the instance accumulators at the start of
each call, so for a fixed directory snapshot and fixed external-tool
outputs its result (and the final instance state) is independent of the
prior instance state — two invocations on the same instance or on
different instances return identical `errors`/`warnings` lists; and being
a pure function of (options, snapshot, file list, tool outputs), repeated
runs over unchanged inputs are deterministic. -/
theorem analyzeCode_state_independent (opts : Options) (st1 st2 : TState)
    (snapshot : List (String × String)) (filesArg : Option (List String))
    (tools : ToolOutputs) :
    analyzeCode opts st1 snapshot filesArg tools =
      analyzeCode opts st2 snapshot filesArg tools := rfl

/-- C5, counterexample: the claim says the unit's first section is "the
union of all unique `#include` lines found across the file set".  A file
containing the line `#include "util.h"` produces the canonicalized line
`#include <util.h>` in the unit, not the line as found: `specTestCode`
(modelled from the spec's words) and `buildTestCode` (the code) differ on
this snapshot. -/
theorem buildTestCode_canonicalizes_includes :
    buildTestCode [("a.c", "#include \"util.h\"\nint x;")] ["a.c"] =
      "#include <util.h>\n\n\nint x;" ∧
    specTestCode [("a.c", "#include \"util.h\"\nint x;")] ["a.c"] =
      "#include \"util.h\"\n\n\nint x;" ∧
    ("#include <util.h>\n\n\nint x;" : String) ≠
      "#include \"util.h\"\n\n\nint x;" := by
  refine ⟨by decide, by decide, by decide⟩

/-- C5, amended: the synthetic translation unit handed to the external
compiler is the include section followed by a blank line and the
concatenation of all file bodies with their `#include` directives stripped
(first conjunct, literally how `checkCompilation` builds it); the include
section is duplicate-free (second conjunct) and every line in it is the
*canonicalized* form `#include <name>` of a name actually included by some
file (third conjunct) — not the `#include` line as found in the file:
quoted includes are rewritten to angle-bracket form (see the
counterexample). -/
theorem buildTestCode_structure :
    (∀ (snapshot : List (String × String)) (files : List String),
      buildTestCode snapshot files = String.mk
        (joinWith ['\n'] ((extractIncludes snapshot files).map String.data) ++
          "\n\n".data ++ combineCode snapshot files)) ∧
    (∀ (snapshot : List (String × String)) (files : List String),
      (extractIncludes snapshot files).Nodup) ∧
    (∀ (snapshot : List (String × String)) (files : List String),
      ∀ s ∈ extractIncludes snapshot files,
        ∃ n ∈ includedNames snapshot files,
          s = "#include <" ++ String.mk n ++ ">") :=
  ⟨fun _ _ => rfl, extractIncludes_nodup, extractIncludes_shape⟩

/-- Witness for the amended C5 theorem: the single include line of the
concrete snapshot is the canonicalization of the quoted `util.h`
include. -/
theorem buildTestCode_structure_witness :
    ∃ n ∈ includedNames [("a.c", "#include \"util.h\"\nint x;")] ["a.c"],
      ("#include <util.h>" : String) = "#include <" ++ String.mk n ++ ">" :=
  buildTestCode_structure.2.2 [("a.c", "#include \"util.h\"\nint x;")] ["a.c"]
    "#include <util.h>" (by decide)

/-- C8: for every Issue produced by any of the four diagnostic passes of
`analyzeCode` — over any snapshot, any tool outputs and any configuration —
severity fully determines the list the Issue lives in (everything in
`errors` has severity `error`, everything in `warnings` severity
`warning`; in particular severity is always one of the two), and `line` is
never negative. -/
theorem analyzeCode_issue_invariants (opts : Options) (st : TState)
    (snapshot : List (String × String)) (filesArg : Option (List String))
    (tools : ToolOutputs) :
    (∀ i ∈ (analyzeCode opts st snapshot filesArg tools).2.errors,
      i.severity = "error" ∧ 0 ≤ i.line) ∧
    (∀ i ∈ (analyzeCode opts st snapshot filesArg tools).2.warnings,
      i.severity = "warning" ∧ 0 ≤ i.line) := by
  have h := analyzeCode_stOk opts st snapshot filesArg tools
  exact ⟨h.1, h.2⟩

/-- Witness for the C8 theorem: the syntax Issue emitted for `int x` has
severity `error` and a non-negative line. -/
theorem analyzeCode_issue_invariants_witness :
    issueIntX.severity = "error" ∧ 0 ≤ issueIntX.line :=
  (analyzeCode_issue_invariants {} ⟨[], [], []⟩ [("a.c", "int x")] none
    {}).1 issueIntX (by decide)

end Traceback
